import Mathlib

/-!
# Bank simulation (`src/Bank/Bank.cc`): shallow embedding and checked properties

Modelling conventions.

* `double` values are exact rationals (`ℚ`); infinities and NaN are outside the model.
  Rounding is modelled only in the section "The running average on doubles", which evaluates
  the update of the stored average with IEEE-754 binary64 rounding.
* `int` counters (`nCust`, `max`, `current`) are unbounded integers (`ℤ`); signed overflow is
  undefined behaviour in C++ and lies outside the model.
* A `Customer *` is an address (`Ptr`), `NULL` is `none`, and memory is a total map from
  addresses to `Customer` objects (`Heap`).
* Every `Bank` method runs under its own mutex, so a method call is one atomic state change;
  the lock/unlock retry loops carry no data and are not represented.
* The member `count` is declared in the class but never initialised, read or written; it is
  left out of the state.
* `std::cout` is a log of events; each call of `printMetrics` appends one report to it.
-/

namespace BankSim

/-- Address of a `Customer` object. -/
abbrev Ptr := Nat

/-- The `struct Customer`: creation time and the next customer in line (`none` is `NULL`). -/
structure Customer where
  startTime : ℚ
  next : Option Ptr

/-- Memory holding the `Customer` objects. -/
abbrev Heap := Ptr → Customer

/-- The data members of `class Bank` (the flag `open` is spelled `open_`). -/
structure Bank where
  queueAvgTime : ℚ
  queueMaxTime : ℚ
  serviceAvgTime : ℚ
  serviceMaxTime : ℚ
  waitAvgTime : ℚ
  waitMaxTime : ℚ
  max : Int
  current : Int
  day : Bool
  first : Option Ptr
  open_ : Bool
  nCust : Int

/-- The constructor `Bank::Bank()`. -/
def Bank.init : Bank where
  nCust := 0
  queueAvgTime := 0
  queueMaxTime := 0
  serviceAvgTime := 0
  serviceMaxTime := 0
  waitAvgTime := 0
  waitMaxTime := 0
  max := 0
  current := 0
  first := none
  day := true
  open_ := true

/-- The loop `while (last.next != NULL) { last = (*last.next); }` of `Bank::add`, run on the
local copy `last`; `fuel` bounds the number of loop tests, `none` means the bound was hit. -/
def walkLast (h : Heap) : Nat → Customer → Option Customer
  | 0, _ => none
  | fuel + 1, last =>
    match last.next with
    | none => some last
    | some p => walkLast h fuel (h p)

/-- The `else` branch of `Bank::add`: `Customer last = (*first);`, the loop, then
`last.next = c;`. The result is the final value of the local variable `last`. -/
def addLocal (fuel : Nat) (h : Heap) (f c : Ptr) : Option Customer :=
  match walkLast h fuel (h f) with
  | none => none
  | some last => some { last with next := some c }

/-- The tail of `Bank::add`: `current++; if (max < current) { max = current; }`. -/
def Bank.bump (b : Bank) : Bank :=
  let b1 := { b with current := b.current + 1 }
  if b1.max < b1.current then { b1 with max := b1.current } else b1

/-- The method `Bank::add(Customer *c)`. The object `last` of the `else` branch is a local
copy, so nothing in memory or in the bank is written there. -/
def Bank.add (fuel : Nat) (h : Heap) (b : Bank) (c : Ptr) : Option Bank :=
  match b.first with
  | none => some ({ b with first := some c }).bump
  | some f =>
    match addLocal fuel h f c with
    | none => none
    | some _ => some b.bump

/-- The method `Bank::remove()`: the returned pointer and the bank afterwards. -/
def Bank.remove (h : Heap) (b : Bank) : Option Ptr × Bank :=
  match b.first with
  | none => (none, b)
  | some out => (some out, { b with first := (h out).next, current := b.current - 1 })

/-- Calls `Bank::add` on each customer of the list, in order. -/
def addAll (fuel : Nat) (h : Heap) : Bank → List Ptr → Option Bank
  | b, [] => some b
  | b, c :: cs =>
    match b.add fuel h c with
    | none => none
    | some b1 => addAll fuel h b1 cs

/-- Calls `Bank::remove` the given number of times and collects the returned pointers. -/
def removeN (h : Heap) : Nat → Bank → List (Option Ptr) × Bank
  | 0, b => ([], b)
  | n + 1, b =>
    let r := b.remove h
    let rest := removeN h n r.2
    (r.1 :: rest.1, rest.2)

/-- A call made on the queue. -/
inductive QueueOp where
  | add (c : Ptr)
  | remove

/-- The customers passed to `add` by a sequence of calls, in order. -/
def addedBy : List QueueOp → List Ptr
  | [] => []
  | QueueOp.add c :: ops => c :: addedBy ops
  | QueueOp.remove :: ops => addedBy ops

/-- Runs a sequence of `add`/`remove` calls; the result lists what each `remove` returned. -/
def runQueue (fuel : Nat) (h : Heap) : Bank → List QueueOp → Option (List (Option Ptr) × Bank)
  | b, [] => some ([], b)
  | b, QueueOp.add c :: ops =>
    match b.add fuel h c with
    | none => none
    | some b1 => runQueue fuel h b1 ops
  | b, QueueOp.remove :: ops =>
    let r := b.remove h
    match runQueue fuel h r.2 ops with
    | none => none
    | some (rs, b2) => some (r.1 :: rs, b2)

/-- The non-`NULL` pointers among returned values. -/
def served (rs : List (Option Ptr)) : List Ptr := rs.filterMap id

/-- A memory in which every customer has `next == NULL` and `startTime == 0`. -/
def flatHeap : Heap := fun _ => { startTime := 0, next := none }

/-! ## Metrics, report and the `open` flag -/

/-- The method `Bank::reset()`. -/
def Bank.reset (b : Bank) : Bank :=
  let b := { b with nCust := 0 }
  let b := { b with queueAvgTime := 0, queueMaxTime := 0, max := 0 }
  let b := { b with serviceAvgTime := 0, serviceMaxTime := 0 }
  { b with waitAvgTime := 0, waitMaxTime := 0 }

/-- The method `Bank::bankTime(double time)`. -/
def bankTime (time : ℚ) : ℚ := (time / 600) * 1000000

/-- The method `Bank::getNCust()`. -/
def Bank.getNCust (b : Bank) : Int := b.nCust

/-- The method `Bank::incNCust()`. -/
def Bank.incNCust (b : Bank) : Bank := { b with nCust := b.nCust + 1 }

/-- The method `Bank::getOpen()`. -/
def Bank.getOpen (b : Bank) : Bool := b.open_

/-- The method `Bank::setDay(bool val)`. -/
def Bank.setDay (b : Bank) (val : Bool) : Bank := { b with day := val }

/-- The method `Bank::getDay()`. -/
def Bank.getDay (b : Bank) : Bool := b.day

/-- The method `Bank::getAvgQueueTime()`. -/
def Bank.getAvgQueueTime (b : Bank) : ℚ := b.queueAvgTime

/-- The method `Bank::getMaxQueueTime()`. -/
def Bank.getMaxQueueTime (b : Bank) : ℚ := b.queueMaxTime

/-- The method `Bank::getAvgServiceTime()`. -/
def Bank.getAvgServiceTime (b : Bank) : ℚ := b.serviceAvgTime

/-- The method `Bank::getMaxServiceTime()`. -/
def Bank.getMaxServiceTime (b : Bank) : ℚ := b.serviceMaxTime

/-- The method `Bank::getAvgWaitTime()`. -/
def Bank.getAvgWaitTime (b : Bank) : ℚ := b.waitAvgTime

/-- The method `Bank::getMaxWaitTime()`. -/
def Bank.getMaxWaitTime (b : Bank) : ℚ := b.waitMaxTime

/-- The method `Bank::getMaxQueueSize()`. -/
def Bank.getMaxQueueSize (b : Bank) : Int := b.max

/-- A value handed to `std::cout`: an `int` or a `double`. -/
inductive Value where
  | int (n : Int)
  | real (x : ℚ)

/-- One output line: text, a value, text, `std::endl`; or the bare `std::endl`. -/
inductive Line where
  | item (pre : String) (v : Value) (post : String)
  | blank

/-- The lines written by one call of `printMetrics`. -/
abbrev Report := List Line

/-- The values of a report, in the order in which they were written. -/
def Report.values (r : Report) : List Value :=
  r.filterMap fun l =>
    match l with
    | Line.item _ v _ => some v
    | Line.blank => none

/-- Things recorded in the log: a report written to `std::cout`, a call of `Bank::reset`,
and the value returned by a call of `Bank::remove` made by a teller. -/
inductive Event where
  | report (r : Report)
  | reset
  | removed (c : Option Ptr)

/-- The lines `printMetrics` writes before it calls `reset()`. -/
def Bank.report (b : Bank) : Report :=
  [ Line.item "" (Value.int b.getNCust) " customers served today.",
    Line.item "Maximum queue size was " (Value.int b.getMaxQueueSize) ".",
    Line.item "Average customer wait time was " (Value.real (b.getAvgQueueTime / 60))
      " bank minutes.",
    Line.item "Maximum customer wait time was " (Value.real (b.getMaxQueueTime / 60))
      " bank minutes.",
    Line.item "Average customer service time was " (Value.real (b.getAvgServiceTime / 60))
      " bank minutes.",
    Line.item "Maximum customer service time was " (Value.real (b.getMaxServiceTime / 60))
      " bank minutes.",
    Line.item "Average teller wait time was " (Value.real (b.getAvgWaitTime / 60))
      " bank minutes.",
    Line.item "Maximum teller wait time was " (Value.real (b.getMaxWaitTime / 60))
      " bank minutes.",
    Line.blank ]

/-- The method `Bank::printMetrics()`: writes the report, then calls `reset()`. -/
def Bank.printMetrics (b : Bank) : Bank × List Event :=
  (b.reset, [Event.report b.report, Event.reset])

/-- The method `Bank::setOpen(bool value)`. -/
def Bank.setOpen (b : Bank) (value : Bool) : Bank × List Event :=
  if b.open_ && !value then
    let r := b.printMetrics
    ({ r.1 with open_ := value }, r.2)
  else
    ({ b with open_ := value }, [])

/-- The method `Bank::updateQueueTime(double time)`. -/
def Bank.updateQueueTime (b : Bank) (time : ℚ) : Bank :=
  let b1 := { b with queueAvgTime :=
    if b.queueAvgTime ≠ 0 then (b.queueAvgTime + time) / 2 else b.queueAvgTime + time }
  if b1.queueMaxTime < time then { b1 with queueMaxTime := time } else b1

/-- The method `Bank::updateServiceTime(double time)`. -/
def Bank.updateServiceTime (b : Bank) (time : ℚ) : Bank :=
  let b1 := { b with serviceAvgTime :=
    if b.serviceAvgTime ≠ 0 then (b.serviceAvgTime + time) / 2 else b.serviceAvgTime + time }
  if b1.serviceMaxTime < time then { b1 with serviceMaxTime := time } else b1

/-- The method `Bank::updateWaitTime(double time)`. -/
def Bank.updateWaitTime (b : Bank) (time : ℚ) : Bank :=
  let b1 := { b with waitAvgTime :=
    if b.waitAvgTime ≠ 0 then (b.waitAvgTime + time) / 2 else b.waitAvgTime + time }
  if b1.waitMaxTime < time then { b1 with waitMaxTime := time } else b1

/-- The three metric series of the bank. -/
inductive Series where
  | queue
  | service
  | wait

/-- The update method of a series. -/
def Bank.update (s : Series) (b : Bank) (time : ℚ) : Bank :=
  match s with
  | Series.queue => b.updateQueueTime time
  | Series.service => b.updateServiceTime time
  | Series.wait => b.updateWaitTime time

/-- The stored average of a series. -/
def Bank.avgOf (s : Series) (b : Bank) : ℚ :=
  match s with
  | Series.queue => b.queueAvgTime
  | Series.service => b.serviceAvgTime
  | Series.wait => b.waitAvgTime

/-- The stored maximum of a series. -/
def Bank.maxOf (s : Series) (b : Bank) : ℚ :=
  match s with
  | Series.queue => b.queueMaxTime
  | Series.service => b.serviceMaxTime
  | Series.wait => b.waitMaxTime

/-- Passes the samples to the update method of a series, in order. -/
def Bank.updateAll (s : Series) (b : Bank) (vs : List ℚ) : Bank :=
  vs.foldl (Bank.update s) b

/-- Calls `setOpen` with each value in turn; the events of all calls, in order. -/
def setOpenAll : Bank → List Bool → Bank × List Event
  | b, [] => (b, [])
  | b, v :: vs =>
    let r := b.setOpen v
    let rest := setOpenAll r.1 vs
    (rest.1, r.2 ++ rest.2)

/-- The value of `open` before the first call and after each call of `setOpenAll`. -/
def openTrace : Bank → List Bool → List Bool
  | b, [] => [b.open_]
  | b, v :: vs => b.open_ :: openTrace (b.setOpen v).1 vs

/-- Number of `true`-to-`false` changes along a sequence of flag values that follows the
value `prev`. -/
def fallsFrom : Bool → List Bool → Nat
  | _, [] => 0
  | prev, v :: vs => (if prev && !v then 1 else 0) + fallsFrom v vs

/-- Number of places where a sequence of flag values goes from `true` to `false`. -/
def falls : List Bool → Nat
  | [] => 0
  | v :: vs => fallsFrom v vs

/-- Number of reports in a log. -/
def reportCount : List Event → Nat
  | [] => 0
  | Event.report _ :: es => reportCount es + 1
  | _ :: es => reportCount es

/-- Number of `reset` calls in a log. -/
def resetCount : List Event → Nat
  | [] => 0
  | Event.reset :: es => resetCount es + 1
  | _ :: es => resetCount es

/-! ## The threads -/

/-- The local variables `idleTime` and `idle` of a teller thread. -/
structure Teller where
  idleTime : ℚ
  idle : Bool

/-- What one teller iteration obtains from outside the bank: the clock reading of its first
`getTimeSec()` call (line 503, 513 or 557), the reading of the call on line 524, and the
value of `rand()`. -/
structure TellerEnv where
  now : ℚ
  now2 : ℚ
  r : Nat

/-- The service time drawn on line 533,
`(double)(rand() % (MAX_CUST_SERV_TIME-(MIN_CUST_SERV_TIME+1))) + MIN_CUST_SERV_TIME+1`,
with the macros expanded as text: `MAX_CUST_SERV_TIME` is `6*60`, `MIN_CUST_SERV_TIME` is `30`. -/
def serviceTime (r : Nat) : ℚ := ((r % (6 * 60 - (30 + 1)) : Nat) : ℚ) + 30 + 1

/-- The body of the `while(1)` loop of `teller`, as a function of the flag values it reads:
`day` and `open` on lines 485-486, `day2` on line 492 (the value read on line 493 is never
used). Returns the bank, the teller's locals and the events logged. -/
def tellerBody (day open1 day2 : Bool) (e : TellerEnv) (h : Heap) (t : Teller) (b : Bank) :
    Bank × Teller × List Event :=
  if day || open1 then
    let r := b.remove h
    match r.1 with
    | none =>
      if !day2 then
        let s := r.2.setOpen false
        (s.1, t, Event.removed none :: s.2)
      else if !t.idle then
        (r.2, { t with idle := true, idleTime := e.now }, [Event.removed none])
      else
        (r.2, t, [Event.removed none])
    | some c =>
      let tb : Teller × Bank :=
        if t.idle then
          ({ t with idle := false }, r.2.updateWaitTime ((e.now - t.idleTime) * 600))
        else (t, r.2)
      let custWaitTime := (e.now2 - (h c).startTime) * 600
      let b3 := tb.2.updateQueueTime custWaitTime
      let waitTime := serviceTime e.r
      let b4 := b3.updateServiceTime waitTime
      (b4.incNCust, tb.1, [Event.removed (some c)])
  else
    if t.idle then
      (b.updateWaitTime ((e.now - t.idleTime) * 600), { idle := false, idleTime := 0 }, [])
    else (b, t, [])

/-- One iteration of `teller` run without interference: every flag read sees the bank as it
is when the iteration starts (`remove` does not change the flags). -/
def tellerIter (e : TellerEnv) (h : Heap) (t : Teller) (b : Bank) : Bank × Teller × List Event :=
  tellerBody b.getDay b.getOpen b.getDay e h t b

/-- One iteration of `genCust`, up to the call of `add`: `c` is the address of the local
`Customer c`, `startTime` the clock reading. The sleep that follows changes no state. -/
def genCustIter (fuel : Nat) (c : Ptr) (startTime : ℚ) (h : Heap) (b : Bank) :
    Option (Heap × Bank) :=
  if b.getDay then
    let h1 := Function.update h c { startTime := startTime, next := none }
    match b.add fuel h1 c with
    | none => none
    | some b1 => some (h1, b1)
  else some (h, b)

/-- The whole simulation: memory, the bank, the locals of each teller thread, the log. -/
structure World where
  heap : Heap
  bank : Bank
  tellers : Nat → Teller
  log : List Event

/-- The world at program start, at clock reading `t0`: each teller starts idle. -/
def World.init (h : Heap) (t0 : ℚ) : World where
  heap := h
  bank := Bank.init
  tellers := fun _ => { idleTime := t0, idle := true }
  log := []

/-- One atomic action of the simulation. -/
inductive Step where
  | teller (i : Nat) (e : TellerEnv)
  | gen (c : Ptr) (startTime : ℚ)
  | updateQueueTime (time : ℚ)
  | updateServiceTime (time : ℚ)
  | updateWaitTime (time : ℚ)
  | setDay (val : Bool)
  | setOpenTrue

/-- Effect of one action; `none` when the loop of `add` does not end within `fuel` tests. -/
def World.step (fuel : Nat) (w : World) : Step → Option World
  | Step.teller i e =>
    let r := tellerIter e w.heap (w.tellers i) w.bank
    some { w with bank := r.1, tellers := Function.update w.tellers i r.2.1,
                  log := w.log ++ r.2.2 }
  | Step.gen c startTime =>
    match genCustIter fuel c startTime w.heap w.bank with
    | none => none
    | some hb => some { w with heap := hb.1, bank := hb.2 }
  | Step.updateQueueTime time => some { w with bank := w.bank.updateQueueTime time }
  | Step.updateServiceTime time => some { w with bank := w.bank.updateServiceTime time }
  | Step.updateWaitTime time => some { w with bank := w.bank.updateWaitTime time }
  | Step.setDay val => some { w with bank := w.bank.setDay val }
  | Step.setOpenTrue =>
    let s := w.bank.setOpen true
    some { w with bank := s.1, log := w.log ++ s.2 }

/-- Runs a sequence of actions. -/
def World.run (fuel : Nat) : World → List Step → Option World
  | w, [] => some w
  | w, s :: ss =>
    match w.step fuel s with
    | none => none
    | some w1 => World.run fuel w1 ss

/-- Number of `remove` calls in a log that returned a customer. -/
def servedCount : List Event → Int
  | [] => 0
  | Event.removed (some _) :: es => servedCount es + 1
  | _ :: es => servedCount es

/-- The served counter after the events of a log, starting from the value `n`: a `remove`
that returned a customer adds one, a `reset` sets it to `0`. -/
def tally : Int → List Event → Int
  | n, [] => n
  | n, Event.removed (some _) :: es => tally (n + 1) es
  | _, Event.reset :: es => tally 0 es
  | n, _ :: es => tally n es

/-- Customers linked from `first` through `next`, following at most `fuel` links. -/
def linked (h : Heap) : Nat → Option Ptr → List Ptr
  | 0, _ => []
  | _ + 1, none => []
  | fuel + 1, some p => p :: linked h fuel (h p).next

/-- Runs `add`/`remove` calls and records, after each `add`, how many customers are linked
from `first` (following at most `fuel` links). -/
def lengthsAfterAdd (fuel : Nat) (h : Heap) : Bank → List QueueOp → Option (List Nat × Bank)
  | b, [] => some ([], b)
  | b, QueueOp.add c :: ops =>
    match b.add fuel h c with
    | none => none
    | some b1 =>
      match lengthsAfterAdd fuel h b1 ops with
      | none => none
      | some (ls, b2) => some ((linked h fuel b1.first).length :: ls, b2)
  | b, QueueOp.remove :: ops => lengthsAfterAdd fuel h (b.remove h).2 ops

/-- How one step changes the served counter: it stays, or it grows by one and the step logged
one `remove` that returned a customer, or it drops to 0 and the step logged a `reset`. -/
def CounterStep (n n1 : Int) (evs : List Event) : Prop :=
  (n1 = n ∧ servedCount evs = 0 ∧ resetCount evs = 0) ∨
  (n1 = n + 1 ∧ servedCount evs = 1 ∧ resetCount evs = 0) ∨
  (n1 = 0 ∧ servedCount evs = 0 ∧ resetCount evs = 1)

/-- The head of the queue, if any, has `next == NULL`. -/
def World.HeadFlat (w : World) : Prop :=
  ∀ f, w.bank.first = some f → (w.heap f).next = none

/-- The reports of a log, in the order in which they were written. -/
def reportsOf : List Event → List Report
  | [] => []
  | Event.report r :: es => r :: reportsOf es
  | _ :: es => reportsOf es

/-- The interval drawn on line 593 of `genCust`,
`(double)(rand() % MAX_CUST_GEN_TIME-(MIN_CUST_GEN_TIME+1)) + (MIN_CUST_GEN_TIME+1)`, with the
macros expanded as text (`MAX_CUST_GEN_TIME` is `4*60`, `MIN_CUST_GEN_TIME` is `60`):
`(double)(rand() % 4*60-(60+1)) + (60+1)`. In C, `%` and `*` bind equally and group from the
left, so the `int` operand of the cast is `((rand() % 4) * 60) - (60+1)`. -/
def genInterval (r : Nat) : ℚ := ((((r : Int) % 4) * 60 - (60 + 1) : Int) : ℚ) + (60 + 1)

/-- First half of one iteration of `timekeeper` (lines 605-609): `setDay(true)`,
`setOpen(true)`, and the argument of the first `usleep`, `bankTime(DAY_END-DAY_START)` with
the macros expanded as text to `16*60*60-9*60*60`. Returns the bank, the events logged and the
sleep in microseconds. -/
def timekeeperStart (b : Bank) : Bank × List Event × ℚ :=
  let b1 := b.setDay true
  let s := b1.setOpen true
  (s.1, s.2, bankTime ((16 * 60 * 60 - 9 * 60 * 60 : Int) : ℚ))

/-- Second half of one iteration of `timekeeper` (lines 612-616): `setDay(false)` and the
argument of the second `usleep`, `bankTime((SEC_IN_DAY)-(DAY_END-DAY_START))` with the macros
expanded as text to `(24*60*60)-(16*60*60-9*60*60)`. -/
def timekeeperEnd (b : Bank) : Bank × ℚ :=
  (b.setDay false, bankTime (((24 * 60 * 60) - (16 * 60 * 60 - 9 * 60 * 60) : Int) : ℚ))

/-- A world at night with the bank still open and the queue empty, the teller busy. -/
def nightWorld : World where
  heap := flatHeap
  bank := { Bank.init with day := false }
  tellers := fun _ => { idleTime := 0, idle := false }
  log := []

/-! ## Locks -/

/-- The mutexes of `class Bank`. -/
inductive Mutex where
  | queueMutex
  | queueMetricMutex
  | serviceMetricMutex
  | waitMetricMutex
  | dayMutex
  | openMutex
  | nCustMutex
deriving DecidableEq

/-- A completed `pthread_mutex_trylock` retry loop (`lock`) or `pthread_mutex_unlock` retry
loop (`unlock`) on a mutex. -/
inductive LockEv where
  | lock (m : Mutex)
  | unlock (m : Mutex)
deriving DecidableEq

/-- The operations of `class Bank`; `setOpen` carries whether its test `open && !value`
holds, i.e. whether it calls `printMetrics`. -/
inductive Method where
  | reset
  | bankTime
  | getTimeSec
  | printMetrics
  | getNCust
  | incNCust
  | getOpen
  | setOpen (printing : Bool)
  | setDay
  | getDay
  | getAvgQueueTime
  | getMaxQueueTime
  | getAvgServiceTime
  | getMaxServiceTime
  | getAvgWaitTime
  | getMaxWaitTime
  | getMaxQueueSize
  | add
  | remove
  | updateQueueTime
  | updateServiceTime
  | updateWaitTime

/-- A method body that locks one mutex, works, and unlocks it. -/
def guarded (m : Mutex) : List LockEv := [LockEv.lock m, LockEv.unlock m]

/-- The lock operations of `Bank::reset()`. -/
def resetLocks : List LockEv :=
  guarded Mutex.nCustMutex ++ guarded Mutex.queueMetricMutex
    ++ guarded Mutex.serviceMetricMutex ++ guarded Mutex.waitMetricMutex

/-- The lock operations of `Bank::printMetrics()`: those of the eight getters it calls, in
the order `getNCust`, `getMaxQueueSize`, `getAvgQueueTime`, `getMaxQueueTime`,
`getAvgServiceTime`, `getMaxServiceTime`, `getAvgWaitTime`, `getMaxWaitTime`, then those of
`reset`. -/
def printMetricsLocks : List LockEv :=
  guarded Mutex.nCustMutex ++ guarded Mutex.queueMetricMutex
    ++ guarded Mutex.queueMetricMutex ++ guarded Mutex.queueMetricMutex
    ++ guarded Mutex.serviceMetricMutex ++ guarded Mutex.serviceMetricMutex
    ++ guarded Mutex.waitMetricMutex ++ guarded Mutex.waitMetricMutex
    ++ resetLocks

/-- The lock and unlock operations each method performs, in program order, including those of
the methods it calls. -/
def lockTrace : Method → List LockEv
  | Method.reset => resetLocks
  | Method.bankTime => []
  | Method.getTimeSec => []
  | Method.printMetrics => printMetricsLocks
  | Method.getNCust => guarded Mutex.nCustMutex
  | Method.incNCust => guarded Mutex.nCustMutex
  | Method.getOpen => guarded Mutex.openMutex
  | Method.setOpen printing =>
    [LockEv.lock Mutex.openMutex]
      ++ (if printing then printMetricsLocks else [])
      ++ [LockEv.unlock Mutex.openMutex]
  | Method.setDay => guarded Mutex.dayMutex
  | Method.getDay => guarded Mutex.dayMutex
  | Method.getAvgQueueTime => guarded Mutex.queueMetricMutex
  | Method.getMaxQueueTime => guarded Mutex.queueMetricMutex
  | Method.getAvgServiceTime => guarded Mutex.serviceMetricMutex
  | Method.getMaxServiceTime => guarded Mutex.serviceMetricMutex
  | Method.getAvgWaitTime => guarded Mutex.waitMetricMutex
  | Method.getMaxWaitTime => guarded Mutex.waitMetricMutex
  | Method.getMaxQueueSize => guarded Mutex.queueMetricMutex
  | Method.add =>
    [LockEv.lock Mutex.queueMutex, LockEv.lock Mutex.queueMetricMutex,
      LockEv.unlock Mutex.queueMetricMutex, LockEv.unlock Mutex.queueMutex]
  | Method.remove =>
    [LockEv.lock Mutex.queueMutex, LockEv.lock Mutex.queueMetricMutex,
      LockEv.unlock Mutex.queueMetricMutex, LockEv.unlock Mutex.queueMutex]
  | Method.updateQueueTime => guarded Mutex.queueMetricMutex
  | Method.updateServiceTime => guarded Mutex.serviceMetricMutex
  | Method.updateWaitTime => guarded Mutex.waitMetricMutex

/-- The pairs (held, acquired) along a lock trace that starts with the mutexes `held` locked:
at each `lock m`, one pair for every mutex held at that moment. -/
def heldPairsFrom : List Mutex → List LockEv → List (Mutex × Mutex)
  | _, [] => []
  | held, LockEv.lock m :: es => held.map (fun x => (x, m)) ++ heldPairsFrom (m :: held) es
  | held, LockEv.unlock m :: es => heldPairsFrom (held.erase m) es

/-- The pairs (held, acquired) of a method that is entered with no mutex held. -/
def heldPairs (m : Method) : List (Mutex × Mutex) := heldPairsFrom [] (lockTrace m)

/-- The mutexes still held at the end of a lock trace. -/
def heldAfter : List Mutex → List LockEv → List Mutex
  | held, [] => held
  | held, LockEv.lock m :: es => heldAfter (m :: held) es
  | held, LockEv.unlock m :: es => heldAfter (held.erase m) es

/-- A call that changes the metric series: one of the three update methods or `reset`. -/
inductive MetricOp where
  | updateQueueTime (time : ℚ)
  | updateServiceTime (time : ℚ)
  | updateWaitTime (time : ℚ)
  | reset

/-- Effect of one metric call on the bank. -/
def Bank.applyMetric (b : Bank) : MetricOp → Bank
  | MetricOp.updateQueueTime time => b.updateQueueTime time
  | MetricOp.updateServiceTime time => b.updateServiceTime time
  | MetricOp.updateWaitTime time => b.updateWaitTime time
  | MetricOp.reset => b.reset

/-- Runs a sequence of metric calls, in order. -/
def runMetrics : Bank → List MetricOp → Bank
  | b, [] => b
  | b, op :: ops => runMetrics (b.applyMetric op) ops

/-! ## The running average on doubles

The definitions above compute with exact rationals. The ones below evaluate the assignment to
the stored average with IEEE-754 binary64 rounding (round to nearest, ties to even). A finite
double is represented by the rational it denotes; `none` stands for a result that is not a
finite double (overflow). -/

/-- Rounds a rational to the nearest integer, a tie to the even neighbour. -/
def roundHalfEven (q : ℚ) : ℤ :=
  if q - ⌊q⌋ < 1 / 2 then ⌊q⌋
  else if 1 / 2 < q - ⌊q⌋ then ⌊q⌋ + 1
  else if ⌊q⌋ % 2 = 0 then ⌊q⌋ else ⌊q⌋ + 1

/-- Exponent of the binade of binary64 that holds `x`: `-1022` for zero and the subnormal
range, otherwise the integer part of the base-2 logarithm of `|x|`. -/
def binade (x : ℚ) : ℤ := if |x| < (2 : ℚ) ^ (-1022 : ℤ) then -1022 else Int.log 2 |x|

/-- Spacing of the doubles in the binade of `x` (52 fraction bits). -/
def ulp (x : ℚ) : ℚ := (2 : ℚ) ^ (binade x - 52)

/-- The double that an operation with exact result `x` delivers: `x` rounded to the nearest
multiple of `ulp x`, ties to even; `none` when that is `2^1024` or more in magnitude. -/
def roundDouble (x : ℚ) : Option ℚ :=
  let y := (roundHalfEven (x / ulp x) : ℚ) * ulp x
  if |y| < (2 : ℚ) ^ (1024 : ℤ) then some y else none

/-- The C++ expression `a + b` on finite doubles. -/
def doubleAdd (a b : ℚ) : Option ℚ := roundDouble (a + b)

/-- The C++ expression `a / 2` on a finite double. -/
def doubleHalf (a : ℚ) : Option ℚ := roundDouble (a / 2)

/-- The right-hand side `(avg!=0) ? ((avg+time)/2) : (avg+time)` of lines 436, 452 and 468,
evaluated on doubles. -/
def avgAssignDouble (avg time : ℚ) : Option ℚ :=
  if avg ≠ 0 then
    match doubleAdd avg time with
    | none => none
    | some sum => doubleHalf sum
  else doubleAdd avg time

/-- The stored average after a sequence of samples, on doubles. -/
def avgAfterDouble : ℚ → List ℚ → Option ℚ
  | avg, [] => some avg
  | avg, v :: vs =>
    match avgAssignDouble avg v with
    | none => none
    | some a => avgAfterDouble a vs

/-- The method `Bank::updateQueueTime(double time)` with the average computed on doubles. -/
def Bank.updateQueueTimeDouble (b : Bank) (time : ℚ) : Option Bank :=
  match avgAssignDouble b.queueAvgTime time with
  | none => none
  | some a =>
    let b1 := { b with queueAvgTime := a }
    some (if b1.queueMaxTime < time then { b1 with queueMaxTime := time } else b1)

/-- The method `Bank::updateServiceTime(double time)` with the average computed on doubles. -/
def Bank.updateServiceTimeDouble (b : Bank) (time : ℚ) : Option Bank :=
  match avgAssignDouble b.serviceAvgTime time with
  | none => none
  | some a =>
    let b1 := { b with serviceAvgTime := a }
    some (if b1.serviceMaxTime < time then { b1 with serviceMaxTime := time } else b1)

/-- The method `Bank::updateWaitTime(double time)` with the average computed on doubles. -/
def Bank.updateWaitTimeDouble (b : Bank) (time : ℚ) : Option Bank :=
  match avgAssignDouble b.waitAvgTime time with
  | none => none
  | some a =>
    let b1 := { b with waitAvgTime := a }
    some (if b1.waitMaxTime < time then { b1 with waitMaxTime := time } else b1)

/-- The update method of a series, on doubles. -/
def Bank.updateDouble (s : Series) (b : Bank) (time : ℚ) : Option Bank :=
  match s with
  | Series.queue => b.updateQueueTimeDouble time
  | Series.service => b.updateServiceTimeDouble time
  | Series.wait => b.updateWaitTimeDouble time

/-- Passes the samples to the update method of a series, in order, on doubles. -/
def Bank.updateAllDouble (s : Series) : Bank → List ℚ → Option Bank
  | b, [] => some b
  | b, v :: vs =>
    match b.updateDouble s v with
    | none => none
    | some b1 => Bank.updateAllDouble s b1 vs

/-! ## The queue: `add` and `remove` -/

theorem walkLast_of_next_none (h : Heap) (fuel : Nat) (last : Customer)
    (hl : last.next = none) : walkLast h (fuel + 1) last = some last := by
  simp [walkLast, hl]

theorem bump_first (b : Bank) : b.bump.first = b.first := by
  unfold Bank.bump
  dsimp only
  split <;> rfl

theorem add_first_none (fuel : Nat) (h : Heap) (b : Bank) (c : Ptr) (hb : b.first = none) :
    ∃ b1, b.add fuel h c = some b1 ∧ b1.first = some c := by
  refine ⟨({ b with first := some c }).bump, ?_, ?_⟩
  · simp [Bank.add, hb]
  · rw [bump_first]

theorem add_first_some (fuel : Nat) (h : Heap) (b : Bank) (c f : Ptr) (hb : b.first = some f)
    (hf : (h f).next = none) :
    ∃ b1, b.add (fuel + 1) h c = some b1 ∧ b1.first = some f := by
  refine ⟨b.bump, ?_, ?_⟩
  · simp [Bank.add, hb, addLocal, walkLast_of_next_none h fuel (h f) hf]
  · rw [bump_first, hb]

/-- Invariant form of the order property: from any bank whose head customer (if any) has
`next == NULL`, the customers returned are, in order, among the head followed by those added. -/
theorem runQueue_sublist (fuel : Nat) (h : Heap) :
    ∀ (ops : List QueueOp) (b : Bank),
      (∀ c ∈ addedBy ops, (h c).next = none) →
      (∀ f, b.first = some f → (h f).next = none) →
      ∃ rs b2, runQueue (fuel + 1) h b ops = some (rs, b2) ∧
        (served rs).Sublist (b.first.toList ++ addedBy ops) := by
  intro ops
  induction ops with
  | nil =>
    intro b _ _
    exact ⟨[], b, rfl, by simp [served]⟩
  | cons op ops ih =>
    intro b hadd hfirst
    cases op with
    | add c =>
      have hc : (h c).next = none := hadd c (by simp [addedBy])
      have hrest : ∀ x ∈ addedBy ops, (h x).next = none := fun x hx =>
        hadd x (by simp [addedBy, hx])
      cases hb : b.first with
      | none =>
        obtain ⟨b1, hb1, hf1⟩ := add_first_none (fuel + 1) h b c hb
        obtain ⟨rs, b2, hrun, hsub⟩ := ih b1 hrest (by
          intro f hf
          rw [hf1] at hf
          cases hf
          exact hc)
        refine ⟨rs, b2, ?_, ?_⟩
        · simp [runQueue, hb1, hrun]
        · rw [hf1] at hsub
          simpa [addedBy] using hsub
      | some f =>
        obtain ⟨b1, hb1, hf1⟩ := add_first_some fuel h b c f hb (hfirst f hb)
        obtain ⟨rs, b2, hrun, hsub⟩ := ih b1 hrest (by
          intro g hg
          rw [hf1] at hg
          cases hg
          exact hfirst f hb)
        refine ⟨rs, b2, ?_, ?_⟩
        · simp [runQueue, hb1, hrun]
        · rw [hf1] at hsub
          simp only [Option.toList, List.singleton_append, addedBy] at hsub ⊢
          exact hsub.trans (List.Sublist.cons₂ f (List.sublist_cons_self c _))
    | remove =>
      have hrest : ∀ x ∈ addedBy ops, (h x).next = none := fun x hx =>
        hadd x (by simpa [addedBy] using hx)
      cases hb : b.first with
      | none =>
        obtain ⟨rs, b2, hrun, hsub⟩ := ih b hrest hfirst
        refine ⟨none :: rs, b2, ?_, ?_⟩
        · simp [runQueue, Bank.remove, hb, hrun]
        · rw [hb] at hsub
          simpa [served, addedBy] using hsub
      | some f =>
        have hf : (h f).next = none := hfirst f hb
        obtain ⟨rs, b2, hrun, hsub⟩ :=
          ih { b with first := (h f).next, current := b.current - 1 } hrest (by
            intro g hg
            simp [hf] at hg)
        refine ⟨some f :: rs, b2, ?_, ?_⟩
        · simp [runQueue, Bank.remove, hb, hrun]
        · simp only [hf, Option.toList, List.nil_append] at hsub
          simp only [served, List.filterMap_cons_some, id_eq, Option.toList,
            List.singleton_append, addedBy] at hsub ⊢
          exact List.Sublist.cons₂ f hsub

/-- C1 (evaluation at the failing input): two customers are added to the empty queue of a
fresh bank and `remove` is called twice; the calls return the first customer and then `NULL`,
so the second customer is lost. -/
theorem add_two_remove_two_loses_second (fuel : Nat) :
    (addAll (fuel + 1) flatHeap Bank.init [1, 2]).map (fun b => (removeN flatHeap 2 b).1)
      = some [some 1, none] := by
  simp [addAll, removeN, Bank.add, Bank.remove, Bank.bump, Bank.init, addLocal, walkLast,
    flatHeap]

/-- C2: for every sequence of `add` and `remove` calls on the queue of a fresh bank, where
the customers added are pairwise distinct and have `next == NULL`, every call returns, the
non-`NULL` customers returned by `remove` form an order-preserving subsequence of the
customers added, and no customer is returned twice. -/
theorem fifo_order (fuel : Nat) (h : Heap) (ops : List QueueOp)
    (hnext : ∀ c ∈ addedBy ops, (h c).next = none)
    (hdistinct : (addedBy ops).Nodup) :
    ∃ rs b, runQueue (fuel + 1) h Bank.init ops = some (rs, b) ∧
      (served rs).Sublist (addedBy ops) ∧ (served rs).Nodup := by
  obtain ⟨rs, b, hrun, hsub⟩ := runQueue_sublist fuel h ops Bank.init hnext (by
    intro f hf
    simp [Bank.init] at hf)
  have hsub2 : (served rs).Sublist (addedBy ops) := by
    simpa [Bank.init] using hsub
  exact ⟨rs, b, hrun, hsub2, hdistinct.sublist hsub2⟩

/-- Witness for `fifo_order`: three distinct customers, with removals in between. -/
theorem fifo_order_witness :
    ∃ rs b, runQueue 1 flatHeap Bank.init
        [QueueOp.add 1, QueueOp.add 2, QueueOp.remove, QueueOp.add 3, QueueOp.remove,
          QueueOp.remove] = some (rs, b) ∧
      (served rs).Sublist [1, 2, 3] ∧ (served rs).Nodup :=
  fifo_order 0 flatHeap
    [QueueOp.add 1, QueueOp.add 2, QueueOp.remove, QueueOp.add 3, QueueOp.remove,
      QueueOp.remove]
    (fun _ _ => rfl) (by decide)

/-! ## Closing the bank: report and reset -/

theorem reportCount_append (xs ys : List Event) :
    reportCount (xs ++ ys) = reportCount xs + reportCount ys := by
  induction xs with
  | nil => simp [reportCount]
  | cons e es ih =>
    cases e
    all_goals simp [reportCount, ih]
    all_goals omega

theorem resetCount_append (xs ys : List Event) :
    resetCount (xs ++ ys) = resetCount xs + resetCount ys := by
  induction xs with
  | nil => simp [resetCount]
  | cons e es ih =>
    cases e
    all_goals simp [resetCount, ih]
    all_goals omega

theorem setOpen_open (b : Bank) (v : Bool) : (b.setOpen v).1.open_ = v := by
  unfold Bank.setOpen
  split <;> rfl

theorem setOpen_counts (b : Bank) (v : Bool) :
    reportCount (b.setOpen v).2 = (if b.open_ && !v then 1 else 0) ∧
      resetCount (b.setOpen v).2 = (if b.open_ && !v then 1 else 0) := by
  unfold Bank.setOpen
  split <;> simp [Bank.printMetrics, reportCount, resetCount]

theorem falls_openTrace (b : Bank) (vs : List Bool) :
    falls (openTrace b vs) = fallsFrom b.open_ (vs.map id) := by
  induction vs generalizing b with
  | nil => simp [openTrace, falls, fallsFrom]
  | cons v vs ih =>
    have h := ih (b.setOpen v).1
    rw [setOpen_open] at h
    cases vs with
    | nil => simp [openTrace, falls, fallsFrom, setOpen_open]
    | cons u us =>
      simp only [openTrace, falls, fallsFrom, setOpen_open, List.map_id, List.map_cons,
        id_eq] at h ⊢
      rw [h]

theorem setOpenAll_counts (vs : List Bool) :
    ∀ b : Bank, reportCount (setOpenAll b vs).2 = fallsFrom b.open_ vs ∧
      resetCount (setOpenAll b vs).2 = fallsFrom b.open_ vs := by
  induction vs with
  | nil => intro b; simp [setOpenAll, reportCount, resetCount, fallsFrom]
  | cons v vs ih =>
    intro b
    have h := ih (b.setOpen v).1
    rw [setOpen_open] at h
    have hc := setOpen_counts b v
    simp only [setOpenAll, reportCount_append, resetCount_append, fallsFrom, h.1, h.2, hc.1,
      hc.2, and_self]

/-- C3: `setOpen(false)` called while `open` is true logs exactly one report followed by
exactly one `reset` call and ends in the reset state with `open == false`; called while
`open` is already false it logs nothing and leaves the state unchanged; over any sequence of
`setOpen` calls the number of reports (and of resets) equals the number of true-to-false
changes of `open`. -/
theorem setOpen_closing (b : Bank) :
    (b.open_ = true →
      b.setOpen false
        = ({ b.reset with open_ := false }, [Event.report b.report, Event.reset])) ∧
    (b.open_ = false → b.setOpen false = (b, [])) ∧
    ∀ vs : List Bool,
      reportCount (setOpenAll b vs).2 = falls (openTrace b vs) ∧
      resetCount (setOpenAll b vs).2 = falls (openTrace b vs) := by
  refine ⟨?_, ?_, ?_⟩
  · intro h
    simp [Bank.setOpen, h, Bank.printMetrics]
  · intro h
    cases b
    simp only at h
    simp [Bank.setOpen, h]
  · intro vs
    rw [falls_openTrace, List.map_id]
    exact setOpenAll_counts vs b

/-- Witness for `setOpen_closing`: the fresh bank is open, so closing it logs one report and
one reset; closing the bank a second time changes nothing and logs nothing. -/
theorem setOpen_closing_witness :
    Bank.init.setOpen false
        = ({ Bank.init.reset with open_ := false },
            [Event.report Bank.init.report, Event.reset]) ∧
      (Bank.init.setOpen false).1.setOpen false = ((Bank.init.setOpen false).1, []) :=
  ⟨(setOpen_closing Bank.init).1 rfl, (setOpen_closing (Bank.init.setOpen false).1).2.1 rfl⟩

/-- C4 (the claim as stated fails): after one `add` on the fresh bank `max` is 1, and
`printMetrics` then sets `max` to 0, so the state afterwards is not the state before with only
`nCust` and the six series values zeroed. -/
theorem printMetrics_changes_max :
    ∃ s : Bank, Bank.init.add 1 flatHeap 1 = some s ∧ s.max = 1 ∧ s.printMetrics.1.max = 0 ∧
      s.printMetrics.1 ≠
        { s with nCust := 0, queueAvgTime := 0, queueMaxTime := 0, serviceAvgTime := 0,
                 serviceMaxTime := 0, waitAvgTime := 0, waitMaxTime := 0 } := by
  refine ⟨({ Bank.init with first := some 1 }).bump, ?_, ?_, ?_, ?_⟩
  · rfl
  · simp [Bank.bump, Bank.init]
  · simp [Bank.printMetrics, Bank.reset]
  · intro h
    have h2 := congrArg Bank.max h
    simp [Bank.printMetrics, Bank.reset, Bank.bump, Bank.init] at h2

/-- C4 (amended): the state after `printMetrics` equals the state before with `nCust`, the six
series values and the maximum queue length `max` set to 0; the day flag, the open flag, the
queue head `first` and the counter `current` are as before. -/
theorem reset_completeness (s : Bank) :
    s.printMetrics.1 =
      { s with nCust := 0, queueAvgTime := 0, queueMaxTime := 0, serviceAvgTime := 0,
               serviceMaxTime := 0, waitAvgTime := 0, waitMaxTime := 0, max := 0 } ∧
    s.printMetrics.1.day = s.day ∧ s.printMetrics.1.open_ = s.open_ ∧
    s.printMetrics.1.first = s.first ∧ s.printMetrics.1.current = s.current :=
  ⟨rfl, rfl, rfl, rfl, rfl⟩

/-- C5: the report logged by `printMetrics` carries the values the bank had before the reset,
in the order `nCust`, `max`, `queueAvgTime/60`, `queueMaxTime/60`, `serviceAvgTime/60`,
`serviceMaxTime/60`, `waitAvgTime/60`, `waitMaxTime/60`. -/
theorem report_content (s : Bank) :
    ∃ r : Report, s.printMetrics.2 = [Event.report r, Event.reset] ∧
      r.values =
        [Value.int s.nCust, Value.int s.max,
          Value.real (s.queueAvgTime / 60), Value.real (s.queueMaxTime / 60),
          Value.real (s.serviceAvgTime / 60), Value.real (s.serviceMaxTime / 60),
          Value.real (s.waitAvgTime / 60), Value.real (s.waitMaxTime / 60)] :=
  ⟨s.report, rfl, rfl⟩

/-! ## The metric series -/

theorem update_avgOf (s : Series) (b : Bank) (v : ℚ) :
    (b.update s v).avgOf s = if b.avgOf s ≠ 0 then (b.avgOf s + v) / 2 else b.avgOf s + v := by
  cases s <;>
    simp only [Bank.update, Bank.avgOf, Bank.updateQueueTime, Bank.updateServiceTime,
      Bank.updateWaitTime] <;>
    split <;> rfl

theorem update_maxOf (s : Series) (b : Bank) (v : ℚ) :
    (b.update s v).maxOf s = Max.max (b.maxOf s) v := by
  cases s <;>
    simp only [Bank.update, Bank.maxOf, Bank.updateQueueTime, Bank.updateServiceTime,
      Bank.updateWaitTime] <;>
    split <;> rename_i h <;> simp only at h ⊢
  all_goals first
    | exact (max_eq_right (le_of_lt h)).symm
    | exact (max_eq_left (not_lt.mp h)).symm

theorem updateAll_maxOf (s : Series) (vs : List ℚ) :
    ∀ b : Bank, (b.updateAll s vs).maxOf s = vs.foldl Max.max (b.maxOf s) := by
  induction vs with
  | nil => intro b; rfl
  | cons v vs ih =>
    intro b
    have h := ih (b.update s v)
    rw [update_maxOf] at h
    simpa [Bank.updateAll] using h

theorem foldl_max_spec (vs : List ℚ) :
    ∀ a : ℚ, a ≤ vs.foldl Max.max a ∧ (∀ x ∈ vs, x ≤ vs.foldl Max.max a) ∧
      (vs.foldl Max.max a = a ∨ vs.foldl Max.max a ∈ vs) := by
  induction vs with
  | nil => intro a; simp
  | cons v vs ih =>
    intro a
    obtain ⟨h1, h2, h3⟩ := ih (Max.max a v)
    refine ⟨le_trans (le_max_left a v) h1, ?_, ?_⟩
    · intro x hx
      rcases List.mem_cons.mp hx with rfl | hx
      · exact le_trans (le_max_right a x) h1
      · exact h2 x hx
    · simp only [List.foldl_cons, List.mem_cons]
      rcases h3 with h3 | h3
      · rcases max_choice a v with hm | hm
        · left; rw [h3, hm]
        · right; left; rw [h3, hm]
      · right; right; exact h3

/-- C6: for each series with stored average 0, every sample `v1 != 0` and every sample `v2`,
the stored average is `v1` after `update(v1)` and `(v1 + v2)/2` after the following
`update(v2)`. -/
theorem running_average (s : Series) (b : Bank) (v1 v2 : ℚ)
    (hzero : b.avgOf s = 0) (hv1 : v1 ≠ 0) :
    (b.update s v1).avgOf s = v1 ∧
      ((b.update s v1).update s v2).avgOf s = (v1 + v2) / 2 := by
  have h1 : (b.update s v1).avgOf s = v1 := by
    rw [update_avgOf, hzero]
    simp
  refine ⟨h1, ?_⟩
  rw [update_avgOf, h1, if_pos hv1]

/-- Witness for `running_average`: samples 3 and 5 on the queue-wait series of the fresh
bank. -/
theorem running_average_witness :
    (Bank.init.update Series.queue 3).avgOf Series.queue = 3 ∧
      ((Bank.init.update Series.queue 3).update Series.queue 5).avgOf Series.queue
        = (3 + 5) / 2 :=
  running_average Series.queue Bank.init 3 5 rfl (by norm_num)

/-- C7 (the claim as stated fails): after the single sample `-1` on the zeroed queue-wait
series the stored maximum is 0, not the largest sample `-1`. -/
theorem max_law_fails_for_negative_sample :
    (Bank.init.updateAll Series.queue [-1]).maxOf Series.queue = 0 ∧
      (Bank.init.updateAll Series.queue [-1]).maxOf Series.queue ≠ -1 := by
  have h : (Bank.init.updateAll Series.queue [-1]).maxOf Series.queue = 0 := by
    rw [updateAll_maxOf]
    simp [Bank.maxOf, Bank.init]
  rw [h]
  exact ⟨rfl, by norm_num⟩

/-- C7 (amended): for each series with stored maximum 0 and every sequence of samples, the
stored maximum afterwards is the largest of 0 and the samples; when at least one sample is
non-negative it is the largest of the samples. -/
theorem max_law (s : Series) (b : Bank) (vs : List ℚ) (hzero : b.maxOf s = 0) :
    (b.updateAll s vs).maxOf s = vs.foldl Max.max 0 ∧
      ((∃ x ∈ vs, 0 ≤ x) →
        (b.updateAll s vs).maxOf s ∈ vs ∧ ∀ x ∈ vs, x ≤ (b.updateAll s vs).maxOf s) := by
  have h : (b.updateAll s vs).maxOf s = vs.foldl Max.max 0 := by
    rw [updateAll_maxOf, hzero]
  rw [h]
  refine ⟨rfl, ?_⟩
  rintro ⟨x, hx, hx0⟩
  obtain ⟨h1, h2, h3⟩ := foldl_max_spec vs 0
  refine ⟨?_, h2⟩
  rcases h3 with h3 | h3
  · have hxe : x = 0 := le_antisymm (h3 ▸ h2 x hx) hx0
    rw [h3, ← hxe]
    exact hx
  · exact h3

/-- Witness for `max_law`: samples 2, 7, 4 on the service-time series of the fresh bank. -/
theorem max_law_witness :
    (Bank.init.updateAll Series.service [2, 7, 4]).maxOf Series.service
        = ([2, 7, 4] : List ℚ).foldl Max.max 0 ∧
      (Bank.init.updateAll Series.service [2, 7, 4]).maxOf Series.service
        ∈ ([2, 7, 4] : List ℚ) ∧
      ∀ x ∈ ([2, 7, 4] : List ℚ),
        x ≤ (Bank.init.updateAll Series.service [2, 7, 4]).maxOf Series.service :=
  ⟨(max_law Series.service Bank.init [2, 7, 4] rfl).1,
    (max_law Series.service Bank.init [2, 7, 4] rfl).2 ⟨2, by simp, by norm_num⟩⟩

/-- C8: `bankTime(t)` is `t * 1000000 / 600` microseconds for every duration `t`; in
particular `bankTime(600) = 1000000` and `bankTime(0) = 0`. -/
theorem compression_law :
    (∀ t : ℚ, bankTime t = t * 1000000 / 600) ∧ bankTime 600 = 1000000 ∧ bankTime 0 = 0 := by
  refine ⟨?_, ?_, ?_⟩
  · intro t
    unfold bankTime
    ring
  · unfold bankTime
    norm_num
  · unfold bankTime
    norm_num

/-! ## Maximum queue size -/

/-- C9 (evaluation at the failing input): after two `add` calls on the fresh bank exactly one
customer is linked from `first` after each call, yet `getMaxQueueSize` returns 2. -/
theorem max_queue_size_counts_unlinked (fuel : Nat) :
    (lengthsAfterAdd (fuel + 2) flatHeap Bank.init [QueueOp.add 1, QueueOp.add 2]).map
        (fun r => (r.1, r.2.getMaxQueueSize)) = some ([1, 1], 2) := by
  simp [lengthsAfterAdd, Bank.add, Bank.bump, Bank.init, addLocal, walkLast, flatHeap, linked,
    Bank.getMaxQueueSize]

/-! ## The served counter -/

section fields

variable (b : Bank) (time : ℚ)

@[simp]
theorem updateQueueTime_nCust : (b.updateQueueTime time).nCust = b.nCust := by
  unfold Bank.updateQueueTime; dsimp only; split <;> rfl

@[simp]
theorem updateServiceTime_nCust : (b.updateServiceTime time).nCust = b.nCust := by
  unfold Bank.updateServiceTime; dsimp only; split <;> rfl

@[simp]
theorem updateWaitTime_nCust : (b.updateWaitTime time).nCust = b.nCust := by
  unfold Bank.updateWaitTime; dsimp only; split <;> rfl

@[simp]
theorem updateQueueTime_first : (b.updateQueueTime time).first = b.first := by
  unfold Bank.updateQueueTime; dsimp only; split <;> rfl

@[simp]
theorem updateServiceTime_first : (b.updateServiceTime time).first = b.first := by
  unfold Bank.updateServiceTime; dsimp only; split <;> rfl

@[simp]
theorem updateWaitTime_first : (b.updateWaitTime time).first = b.first := by
  unfold Bank.updateWaitTime; dsimp only; split <;> rfl

@[simp]
theorem updateQueueTime_open_ : (b.updateQueueTime time).open_ = b.open_ := by
  unfold Bank.updateQueueTime; dsimp only; split <;> rfl

@[simp]
theorem updateQueueTime_day : (b.updateQueueTime time).day = b.day := by
  unfold Bank.updateQueueTime; dsimp only; split <;> rfl

@[simp]
theorem updateQueueTime_current : (b.updateQueueTime time).current = b.current := by
  unfold Bank.updateQueueTime; dsimp only; split <;> rfl

@[simp]
theorem updateQueueTime_max : (b.updateQueueTime time).max = b.max := by
  unfold Bank.updateQueueTime; dsimp only; split <;> rfl

@[simp]
theorem updateServiceTime_open_ : (b.updateServiceTime time).open_ = b.open_ := by
  unfold Bank.updateServiceTime; dsimp only; split <;> rfl

@[simp]
theorem updateServiceTime_day : (b.updateServiceTime time).day = b.day := by
  unfold Bank.updateServiceTime; dsimp only; split <;> rfl

@[simp]
theorem updateServiceTime_current : (b.updateServiceTime time).current = b.current := by
  unfold Bank.updateServiceTime; dsimp only; split <;> rfl

@[simp]
theorem updateServiceTime_max : (b.updateServiceTime time).max = b.max := by
  unfold Bank.updateServiceTime; dsimp only; split <;> rfl

@[simp]
theorem updateWaitTime_open_ : (b.updateWaitTime time).open_ = b.open_ := by
  unfold Bank.updateWaitTime; dsimp only; split <;> rfl

@[simp]
theorem updateWaitTime_day : (b.updateWaitTime time).day = b.day := by
  unfold Bank.updateWaitTime; dsimp only; split <;> rfl

@[simp]
theorem updateWaitTime_current : (b.updateWaitTime time).current = b.current := by
  unfold Bank.updateWaitTime; dsimp only; split <;> rfl

@[simp]
theorem updateWaitTime_max : (b.updateWaitTime time).max = b.max := by
  unfold Bank.updateWaitTime; dsimp only; split <;> rfl

@[simp]
theorem bump_nCust : b.bump.nCust = b.nCust := by
  unfold Bank.bump; dsimp only; split <;> rfl

@[simp]
theorem setOpen_first (v : Bool) : (b.setOpen v).1.first = b.first := by
  unfold Bank.setOpen; split <;> rfl

end fields

theorem add_nCust (fuel : Nat) (h : Heap) (b b1 : Bank) (c : Ptr)
    (hadd : b.add fuel h c = some b1) : b1.nCust = b.nCust := by
  unfold Bank.add at hadd
  split at hadd
  · cases hadd; simp
  · split at hadd
    · cases hadd
    · cases hadd; simp

theorem tellerBody_counter (day open1 day2 : Bool) (e : TellerEnv) (h : Heap) (t : Teller)
    (b : Bank) :
    (tellerBody day open1 day2 e h t b).1.nCust
        = tally b.nCust (tellerBody day open1 day2 e h t b).2.2 ∧
      CounterStep b.nCust (tellerBody day open1 day2 e h t b).1.nCust
        (tellerBody day open1 day2 e h t b).2.2 := by
  unfold tellerBody CounterStep
  cases hb : b.first with
  | none =>
    by_cases hd : (day || open1) = true
    · by_cases hd2 : day2 = true
      · by_cases hi : t.idle = true <;>
          simp [Bank.remove, hb, hd, hd2, hi, tally, servedCount, resetCount]
      · by_cases ho : b.open_ = true <;>
          simp [Bank.remove, hb, hd, hd2, ho, tally, servedCount, resetCount, Bank.setOpen,
            Bank.printMetrics, Bank.reset]
    · by_cases hi : t.idle = true <;>
        simp [hd, hi, tally, servedCount, resetCount]
  | some f =>
    by_cases hd : (day || open1) = true
    · by_cases hi : t.idle = true <;>
        simp [Bank.remove, hb, hd, hi, tally, servedCount, resetCount, Bank.incNCust]
    · by_cases hi : t.idle = true <;>
        simp [hd, hi, tally, servedCount, resetCount]

theorem tellerBody_first (day open1 day2 : Bool) (e : TellerEnv) (h : Heap) (t : Teller)
    (b : Bank) (hinv : ∀ f, b.first = some f → (h f).next = none) :
    (tellerBody day open1 day2 e h t b).1.first = b.first ∨
      (tellerBody day open1 day2 e h t b).1.first = none := by
  unfold tellerBody
  cases hb : b.first with
  | none =>
    by_cases hd : (day || open1) = true
    · by_cases hd2 : day2 = true
      · by_cases hi : t.idle = true <;> simp [Bank.remove, hb, hd, hd2, hi]
      · simp [Bank.remove, hb, hd, hd2]
    · by_cases hi : t.idle = true <;> simp [hd, hi, hb]
  | some f =>
    have hf := hinv f hb
    by_cases hd : (day || open1) = true
    · by_cases hi : t.idle = true <;> simp [Bank.remove, hb, hd, hi, hf, Bank.incNCust]
    · by_cases hi : t.idle = true <;> simp [hd, hi, hb]

theorem step_total (fuel : Nat) (w : World) (s : Step) (hinv : w.HeadFlat) :
    ∃ w1, w.step (fuel + 1) s = some w1 ∧ w1.HeadFlat := by
  cases s with
  | teller i e =>
    refine ⟨_, rfl, ?_⟩
    intro f hf
    simp only [tellerIter] at hf
    rcases tellerBody_first w.bank.getDay w.bank.getOpen w.bank.getDay e w.heap (w.tellers i)
      w.bank hinv with h1 | h1
    · rw [h1] at hf
      exact hinv f hf
    · rw [h1] at hf
      cases hf
  | gen c startTime =>
    by_cases hd : w.bank.getDay = true
    · cases hb : w.bank.first with
      | none =>
        obtain ⟨b1, hb1, hf1⟩ := add_first_none (fuel + 1)
          (Function.update w.heap c { startTime := startTime, next := none }) w.bank c hb
        refine ⟨{ w with heap := Function.update w.heap c { startTime := startTime, next := none },
                         bank := b1 }, ?_, ?_⟩
        · simp [World.step, genCustIter, hd, hb1]
        · intro f hf
          simp only [hf1, Option.some.injEq] at hf
          subst hf
          simp
      | some g =>
        have hg : (Function.update w.heap c { startTime := startTime, next := none } g).next
            = none := by
          by_cases hgc : g = c
          · subst hgc; simp
          · simp [Function.update_noteq hgc, hinv g hb]
        obtain ⟨b1, hb1, hf1⟩ := add_first_some fuel
          (Function.update w.heap c { startTime := startTime, next := none }) w.bank c g hb hg
        refine ⟨{ w with heap := Function.update w.heap c { startTime := startTime, next := none },
                         bank := b1 }, ?_, ?_⟩
        · simp [World.step, genCustIter, hd, hb1]
        · intro f hf
          simp only [hf1, Option.some.injEq] at hf
          subst hf
          exact hg
    · refine ⟨w, ?_, hinv⟩
      simp [World.step, genCustIter, hd]
  | updateQueueTime time =>
    refine ⟨_, rfl, ?_⟩
    intro f hf
    exact hinv f (by simpa using hf)
  | updateServiceTime time =>
    refine ⟨_, rfl, ?_⟩
    intro f hf
    exact hinv f (by simpa using hf)
  | updateWaitTime time =>
    refine ⟨_, rfl, ?_⟩
    intro f hf
    exact hinv f (by simpa using hf)
  | setDay val =>
    refine ⟨_, rfl, ?_⟩
    intro f hf
    exact hinv f hf
  | setOpenTrue =>
    refine ⟨_, rfl, ?_⟩
    intro f hf
    exact hinv f (by simpa using hf)

theorem step_counter (fuel : Nat) (w w1 : World) (s : Step) (hstep : w.step fuel s = some w1) :
    ∃ evs, w1.log = w.log ++ evs ∧ w1.bank.nCust = tally w.bank.nCust evs ∧
      CounterStep w.bank.nCust w1.bank.nCust evs := by
  cases s with
  | teller i e =>
    simp only [World.step, Option.some.injEq] at hstep
    subst hstep
    have h := tellerBody_counter w.bank.getDay w.bank.getOpen w.bank.getDay e w.heap
      (w.tellers i) w.bank
    exact ⟨_, rfl, h.1, h.2⟩
  | gen c startTime =>
    simp only [World.step, genCustIter] at hstep
    split at hstep
    · cases hstep
    · rename_i hb heq
      cases hstep
      refine ⟨[], by simp, ?_, ?_⟩
      all_goals
        split at heq
        · split at heq
          · cases heq
          · rename_i b1 hadd
            cases heq
            simp [add_nCust _ _ _ _ _ hadd, tally, CounterStep, servedCount, resetCount]
        · cases heq
          simp [tally, CounterStep, servedCount, resetCount]
  | updateQueueTime time =>
    cases hstep
    exact ⟨[], by simp, by simp [tally], by simp [CounterStep, servedCount, resetCount]⟩
  | updateServiceTime time =>
    cases hstep
    exact ⟨[], by simp, by simp [tally], by simp [CounterStep, servedCount, resetCount]⟩
  | updateWaitTime time =>
    cases hstep
    exact ⟨[], by simp, by simp [tally], by simp [CounterStep, servedCount, resetCount]⟩
  | setDay val =>
    cases hstep
    exact ⟨[], by simp, by simp [tally, Bank.setDay],
      by simp [CounterStep, servedCount, resetCount, Bank.setDay]⟩
  | setOpenTrue =>
    cases hstep
    exact ⟨[], by simp [Bank.setOpen], by simp [tally, Bank.setOpen],
      by simp [CounterStep, servedCount, resetCount, Bank.setOpen]⟩

theorem tally_append (xs ys : List Event) :
    ∀ n : Int, tally n (xs ++ ys) = tally (tally n xs) ys := by
  induction xs with
  | nil => intro n; rfl
  | cons e es ih =>
    intro n
    cases e with
    | report r => simpa [tally] using ih n
    | reset => simpa [tally] using ih 0
    | removed c =>
      cases c with
      | none => simpa [tally] using ih n
      | some p => simpa [tally] using ih (n + 1)

theorem tally_of_no_reset (es : List Event) :
    ∀ n : Int, resetCount es = 0 → tally n es = n + servedCount es := by
  induction es with
  | nil => intro n _; simp [tally, servedCount]
  | cons e es ih =>
    intro n hr
    cases e with
    | report r =>
      simp only [resetCount] at hr
      simpa [tally, servedCount] using ih n hr
    | reset => simp [resetCount] at hr
    | removed c =>
      simp only [resetCount] at hr
      cases c with
      | none => simpa [tally, servedCount] using ih n hr
      | some p =>
        have h := ih (n + 1) hr
        simp only [tally, servedCount, h]
        ring

theorem run_counter (fuel : Nat) (steps : List Step) :
    ∀ w : World, w.HeadFlat →
      ∃ w1 evs, w.run (fuel + 1) steps = some w1 ∧ w1.log = w.log ++ evs ∧
        w1.bank.nCust = tally w.bank.nCust evs := by
  induction steps with
  | nil =>
    intro w _
    exact ⟨w, [], rfl, by simp, rfl⟩
  | cons s ss ih =>
    intro w hinv
    obtain ⟨w1, hstep, hinv1⟩ := step_total fuel w s hinv
    obtain ⟨evs, hlog, hn, _⟩ := step_counter (fuel + 1) w w1 s hstep
    obtain ⟨w2, evs2, hrun, hlog2, hn2⟩ := ih w1 hinv1
    refine ⟨w2, evs ++ evs2, ?_, ?_, ?_⟩
    · simp [World.run, hstep, hrun]
    · rw [hlog2, hlog, List.append_assoc]
    · rw [hn2, hn, tally_append]

/-- C10 (the claim as stated fails): from the initial world a customer is generated and
served, `day` is set to false, and the next teller iteration finds the queue empty and closes
the bank; afterwards `getNCust` is 0 although one teller iteration received a customer. -/
theorem served_counter_drops_on_close :
    ∃ w1, (World.init flatHeap 0).run 1
        [Step.gen 1 0, Step.teller 0 { now := 1, now2 := 1, r := 0 }, Step.setDay false,
          Step.teller 0 { now := 2, now2 := 2, r := 0 }] = some w1 ∧
      w1.bank.getNCust = 0 ∧ servedCount w1.log = 1 := by
  simp [World.run, World.step, World.init, genCustIter, tellerIter, tellerBody, Bank.add,
    Bank.remove, Bank.bump, Bank.init, Bank.getDay, Bank.getOpen, Bank.setDay, Bank.setOpen,
    Bank.printMetrics, Bank.reset, Bank.incNCust, Bank.getNCust, servedCount, flatHeap]

/-- C10 (amended): from any world whose bank has `nCust == 0`, every finite sequence of
teller iterations, generator steps, metric updates, `setDay` calls and `setOpen(true)` calls
runs to an end, and afterwards `getNCust` equals the number of teller iterations that received
a customer from `remove` since the last `reset` (run by a teller iteration that closed the
bank); when no `reset` was logged it equals the number of all such iterations. Each single
step leaves the counter unchanged, or adds one while logging one served customer, or sets it
to 0 while logging a `reset`. -/
theorem served_counter (fuel : Nat) (w : World) (steps : List Step)
    (hfresh : w.bank.nCust = 0) (hlog : w.log = []) (hhead : w.HeadFlat) :
    ∃ w1, w.run (fuel + 1) steps = some w1 ∧
      w1.bank.getNCust = tally 0 w1.log ∧
      (resetCount w1.log = 0 → w1.bank.getNCust = servedCount w1.log) ∧
      ∀ (u u1 : World) (s : Step), u.step (fuel + 1) s = some u1 →
        ∃ evs, u1.log = u.log ++ evs ∧ CounterStep u.bank.nCust u1.bank.nCust evs := by
  obtain ⟨w1, evs, hrun, hl, hn⟩ := run_counter fuel steps w hhead
  rw [hlog, List.nil_append] at hl
  rw [hfresh, ← hl] at hn
  refine ⟨w1, hrun, hn, ?_, ?_⟩
  · intro hr
    have h := tally_of_no_reset w1.log 0 hr
    simp only [Bank.getNCust, hn, h, zero_add]
  · intro u u1 s hs
    obtain ⟨evs1, h1, _, h3⟩ := step_counter (fuel + 1) u u1 s hs
    exact ⟨evs1, h1, h3⟩

/-- Witness for `served_counter`: two customers are generated and the teller iterates three
times during the day. -/
theorem served_counter_witness :
    ∃ w1, (World.init flatHeap 0).run 1
        [Step.gen 1 0, Step.teller 0 { now := 1, now2 := 1, r := 7 }, Step.gen 1 2,
          Step.teller 1 { now := 3, now2 := 3, r := 9 },
          Step.teller 0 { now := 4, now2 := 4, r := 0 }] = some w1 ∧
      w1.bank.getNCust = tally 0 w1.log ∧
      (resetCount w1.log = 0 → w1.bank.getNCust = servedCount w1.log) ∧
      ∀ (u u1 : World) (s : Step), u.step 1 s = some u1 →
        ∃ evs, u1.log = u.log ++ evs ∧ CounterStep u.bank.nCust u1.bank.nCust evs :=
  served_counter 0 (World.init flatHeap 0) _ rfl rfl (fun f hf => by cases hf)

/-! ## A whole day -/

/-- C11 (evaluation at the failing input): with one teller and the fresh bank, three customers
are added while `day` is true, the teller then iterates twice (serving one customer, then
finding the queue empty), `day` is set to false and the teller iterates once more. The bank is
closed with exactly one report, and that report shows 1 customer served and maximum queue
size 3. -/
theorem end_to_end_day_loses_customers :
    ∃ w1, (World.init flatHeap 0).run 1
        [Step.gen 1 0, Step.gen 2 1, Step.gen 3 2,
          Step.teller 0 { now := 3, now2 := 3, r := 0 },
          Step.teller 0 { now := 4, now2 := 4, r := 0 }, Step.setDay false,
          Step.teller 0 { now := 5, now2 := 5, r := 0 }] = some w1 ∧
      w1.bank.open_ = false ∧
      (reportsOf w1.log).map (fun r => r.values.take 2) = [[Value.int 1, Value.int 3]] := by
  simp [World.run, World.step, World.init, genCustIter, tellerIter, tellerBody, Bank.add,
    Bank.remove, Bank.bump, Bank.init, Bank.getDay, Bank.getOpen, Bank.setDay, Bank.setOpen,
    Bank.printMetrics, Bank.reset, Bank.incNCust, Bank.getNCust, Bank.report,
    Bank.getMaxQueueSize, reportsOf, Report.values, addLocal, walkLast, flatHeap,
    Function.update]

/-! ## Who changes `open` -/

theorem bump_open (b : Bank) : b.bump.open_ = b.open_ := by
  unfold Bank.bump
  dsimp only
  split <;> rfl

theorem add_open (fuel : Nat) (h : Heap) (b b1 : Bank) (c : Ptr)
    (hadd : b.add fuel h c = some b1) : b1.open_ = b.open_ := by
  unfold Bank.add at hadd
  split at hadd
  · cases hadd; rw [bump_open]
  · split at hadd
    · cases hadd
    · cases hadd; rw [bump_open]

theorem tellerBody_open (day open1 day2 : Bool) (e : TellerEnv) (h : Heap) (t : Teller)
    (b : Bank) :
    (b.open_ = true → (tellerBody day open1 day2 e h t b).1.open_ = false →
      (b.remove h).1 = none ∧ day2 = false ∧ (day || open1) = true) ∧
    (b.open_ = false → (tellerBody day open1 day2 e h t b).1.open_ = false) := by
  unfold tellerBody
  cases hb : b.first with
  | none =>
    by_cases hd : (day || open1) = true
    · by_cases hd2 : day2 = true
      · by_cases hi : t.idle = true <;> simp [Bank.remove, hb, hd, hd2, hi]
      · by_cases ho : b.open_ = true <;>
          simp [Bank.remove, hb, hd, hd2, ho, Bank.setOpen, Bank.printMetrics]
    · by_cases hi : t.idle = true <;> simp [hd, hi, hb]
  | some f =>
    by_cases hd : (day || open1) = true
    · by_cases hi : t.idle = true <;> simp [Bank.remove, hb, hd, hi, Bank.incNCust]
    · by_cases hi : t.idle = true <;> simp [hd, hi, hb]

theorem genCustIter_open (fuel : Nat) (c : Ptr) (startTime : ℚ) (h h1 : Heap) (b b1 : Bank)
    (hgen : genCustIter fuel c startTime h b = some (h1, b1)) : b1.open_ = b.open_ := by
  unfold genCustIter at hgen
  split at hgen
  · dsimp only at hgen
    split at hgen
    · cases hgen
    · rename_i b2 hadd
      cases hgen
      exact add_open _ _ _ _ _ hadd
  · cases hgen
    rfl

/-- C12: in every step of the simulation, from any state, `open` goes from true to false only
in a teller iteration whose `remove` returned `NULL` and whose read of `day` was false; a
generator step, `setDay` and `setOpen(true)` (the timekeeper's calls) never do it; and `open`
goes from false to true only in the timekeeper's `setOpen(true)`. The same holds for a teller
iteration whose flag reads are arbitrary earlier values: it closes an open bank only when
`remove` returned `NULL` and the read of `day` on line 492 was false. -/
theorem open_flag_ownership (fuel : Nat) (w w1 : World) (s : Step)
    (hstep : w.step fuel s = some w1) :
    (w.bank.open_ = true → w1.bank.open_ = false →
      ∃ i e, s = Step.teller i e ∧ (w.bank.remove w.heap).1 = none ∧
        w.bank.getDay = false) ∧
    (w.bank.open_ = false → w1.bank.open_ = true → s = Step.setOpenTrue) ∧
    ∀ (day open1 day2 : Bool) (e : TellerEnv) (h : Heap) (t : Teller) (b : Bank),
      b.open_ = true → (tellerBody day open1 day2 e h t b).1.open_ = false →
        (b.remove h).1 = none ∧ day2 = false := by
  refine ⟨?_, ?_, ?_⟩
  · intro ho hc
    cases s with
    | teller i e =>
      simp only [World.step, Option.some.injEq] at hstep
      subst hstep
      have h := (tellerBody_open w.bank.getDay w.bank.getOpen w.bank.getDay e w.heap
        (w.tellers i) w.bank).1 ho hc
      exact ⟨i, e, rfl, h.1, h.2.1⟩
    | gen c startTime =>
      simp only [World.step] at hstep
      split at hstep
      · cases hstep
      · rename_i hb heq
        cases hstep
        have := genCustIter_open _ _ _ _ hb.1 _ hb.2 heq
        simp only at hc
        rw [this, ho] at hc
        cases hc
    | updateQueueTime time => cases hstep; simp [ho] at hc
    | updateServiceTime time => cases hstep; simp [ho] at hc
    | updateWaitTime time => cases hstep; simp [ho] at hc
    | setDay val => cases hstep; simp [Bank.setDay, ho] at hc
    | setOpenTrue => cases hstep; simp [setOpen_open] at hc
  · intro ho hc
    cases s with
    | teller i e =>
      simp only [World.step, Option.some.injEq] at hstep
      subst hstep
      have h := (tellerBody_open w.bank.getDay w.bank.getOpen w.bank.getDay e w.heap
        (w.tellers i) w.bank).2 ho
      simp only [tellerIter] at hc
      rw [h] at hc
      cases hc
    | gen c startTime =>
      simp only [World.step] at hstep
      split at hstep
      · cases hstep
      · rename_i hb heq
        cases hstep
        have := genCustIter_open _ _ _ _ hb.1 _ hb.2 heq
        simp only at hc
        rw [this, ho] at hc
        cases hc
    | updateQueueTime time => cases hstep; simp [ho] at hc
    | updateServiceTime time => cases hstep; simp [ho] at hc
    | updateWaitTime time => cases hstep; simp [ho] at hc
    | setDay val => cases hstep; simp [Bank.setDay, ho] at hc
    | setOpenTrue => rfl
  · intro day open1 day2 e h t b ho hc
    have h := (tellerBody_open day open1 day2 e h t b).1 ho hc
    exact ⟨h.1, h.2.1⟩

/-- Witness for `open_flag_ownership`: at night, with the bank open and the queue empty, a
teller iteration closes the bank. -/
theorem open_flag_ownership_witness :
    ∃ i e, Step.teller 0 { now := 1, now2 := 1, r := 0 } = Step.teller i e ∧
      (nightWorld.bank.remove nightWorld.heap).1 = none ∧ nightWorld.bank.getDay = false :=
  (open_flag_ownership 1 nightWorld _ (Step.teller 0 { now := 1, now2 := 1, r := 0 }) rfl).1
    rfl rfl

/-! ## The running average over many samples -/

theorem updateAll_append (s : Series) (b : Bank) (xs ys : List ℚ) :
    b.updateAll s (xs ++ ys) = (b.updateAll s xs).updateAll s ys := by
  simp [Bank.updateAll, List.foldl_append]

theorem updateAll_zeros (s : Series) (zs : List ℚ) :
    ∀ b : Bank, b.avgOf s = 0 → (∀ z ∈ zs, z = 0) → (b.updateAll s zs).avgOf s = 0 := by
  induction zs with
  | nil => intro b hb _; exact hb
  | cons z zs ih =>
    intro b hb hz
    have hz0 : z = 0 := hz z (by simp)
    have h1 : (b.update s z).avgOf s = 0 := by
      rw [update_avgOf, hb, hz0]
      simp
    exact ih (b.update s z) h1 (fun y hy => hz y (by simp [hy]))

theorem updateAll_pos (s : Series) (ws : List ℚ) :
    ∀ b : Bank, 0 < b.avgOf s → (∀ y ∈ ws, 0 ≤ y) → 0 < (b.updateAll s ws).avgOf s := by
  induction ws with
  | nil => intro b hb _; exact hb
  | cons y ws ih =>
    intro b hb hy
    have hy0 : 0 ≤ y := hy y (by simp)
    have h1 : 0 < (b.update s y).avgOf s := by
      rw [update_avgOf, if_pos (ne_of_gt hb)]
      have : 0 < b.avgOf s + y := add_pos_of_pos_of_nonneg hb hy0
      positivity
    exact ih (b.update s y) h1 (fun x hx => hy x (by simp [hx]))

/-- C13 (amended): in exact arithmetic, for each series with stored average 0 and non-negative
samples: the stored average is 0 as long as every sample so far is 0; it equals `v` right
after the first nonzero sample `v`; after that it is never 0 again, and each later sample `x`
turns the average `a` into `(a + x)/2`. -/
theorem decaying_average (s : Series) (b : Bank) (hzero : b.avgOf s = 0) :
    (∀ zs : List ℚ, (∀ z ∈ zs, z = 0) → (b.updateAll s zs).avgOf s = 0) ∧
    (∀ (zs : List ℚ) (v : ℚ), (∀ z ∈ zs, z = 0) → v ≠ 0 →
      (b.updateAll s (zs ++ [v])).avgOf s = v) ∧
    (∀ (zs ws : List ℚ) (v x : ℚ), (∀ z ∈ zs, z = 0) → 0 < v → (∀ y ∈ ws, 0 ≤ y) →
      (b.updateAll s (zs ++ v :: ws)).avgOf s ≠ 0 ∧
      (b.updateAll s (zs ++ v :: (ws ++ [x]))).avgOf s
        = ((b.updateAll s (zs ++ v :: ws)).avgOf s + x) / 2) := by
  have hfirst : ∀ (zs : List ℚ) (v : ℚ), (∀ z ∈ zs, z = 0) →
      (b.updateAll s (zs ++ [v])).avgOf s = v := by
    intro zs v hzs
    rw [updateAll_append]
    have h0 := updateAll_zeros s zs b hzero hzs
    show ((b.updateAll s zs).update s v).avgOf s = v
    rw [update_avgOf, h0]
    simp
  refine ⟨fun zs hzs => updateAll_zeros s zs b hzero hzs, fun zs v hzs _ => hfirst zs v hzs, ?_⟩
  intro zs ws v x hzs hv hws
  have hpos : 0 < (b.updateAll s (zs ++ v :: ws)).avgOf s := by
    have hsplit : zs ++ v :: ws = (zs ++ [v]) ++ ws := by simp
    rw [hsplit, updateAll_append]
    exact updateAll_pos s ws _ (by rw [hfirst zs v hzs]; exact hv) hws
  refine ⟨ne_of_gt hpos, ?_⟩
  have hsplit : zs ++ v :: (ws ++ [x]) = (zs ++ v :: ws) ++ [x] := by simp
  rw [hsplit, updateAll_append]
  show ((b.updateAll s (zs ++ v :: ws)).update s x).avgOf s = _
  rw [update_avgOf, if_pos (ne_of_gt hpos)]

/-- Witness for `decaying_average`: the teller-idle series of the fresh bank with the samples
0, 4, 0, 2 and then 6. -/
theorem decaying_average_witness :
    (Bank.init.updateAll Series.wait [0]).avgOf Series.wait = 0 ∧
    (Bank.init.updateAll Series.wait ([0] ++ [4])).avgOf Series.wait = 4 ∧
    (Bank.init.updateAll Series.wait ([0] ++ 4 :: [0, 2])).avgOf Series.wait ≠ 0 ∧
    (Bank.init.updateAll Series.wait ([0] ++ 4 :: ([0, 2] ++ [6]))).avgOf Series.wait
      = ((Bank.init.updateAll Series.wait ([0] ++ 4 :: [0, 2])).avgOf Series.wait + 6) / 2 :=
  ⟨(decaying_average Series.wait Bank.init rfl).1 [0] (by simp),
    (decaying_average Series.wait Bank.init rfl).2.1 [0] 4 (by simp) (by norm_num),
    (decaying_average Series.wait Bank.init rfl).2.2 [0] [0, 2] 4 6 (by simp) (by norm_num)
      (by
        intro y hy
        simp only [List.mem_cons, List.mem_singleton, List.not_mem_nil, or_false] at hy
        rcases hy with rfl | rfl <;> norm_num)⟩

/-! ## What a teller iteration does -/

/-- C14 (the claim as stated fails): a teller iteration whose reads give `day == false` and
`open == false`, run by a busy teller (`idle == false`), leaves the teller busy, leaves the
bank unchanged and so records nothing. -/
theorem busy_teller_at_night_unchanged :
    (tellerBody false false false { now := 9, now2 := 9, r := 0 } flatHeap
        { idleTime := 1, idle := false } Bank.init).2.1.idle = false ∧
    (tellerBody false false false { now := 9, now2 := 9, r := 0 } flatHeap
        { idleTime := 1, idle := false } Bank.init).1.waitAvgTime = Bank.init.waitAvgTime ∧
    (tellerBody false false false { now := 9, now2 := 9, r := 0 } flatHeap
        { idleTime := 1, idle := false } Bank.init).1.waitMaxTime = Bank.init.waitMaxTime := by
  simp [tellerBody]

/-- C14 (amended): in a teller iteration whose reads give `day == false` and `open == false`,
a teller that is idle (`idle == true`) gets `idle = false`, records the teller-idle sample
`(now - idleTime) * 600` through `updateWaitTime` and sets `idleTime = 0`; a teller that is
busy (`idle == false`) stays as it is and the bank is unchanged. No `remove` is called. -/
theorem teller_at_night_closed (day2 : Bool) (e : TellerEnv) (h : Heap) (t : Teller)
    (b : Bank) :
    (t.idle = true →
      tellerBody false false day2 e h t b
        = (b.updateWaitTime ((e.now - t.idleTime) * 600), { idle := false, idleTime := 0 },
            [])) ∧
    (t.idle = false → tellerBody false false day2 e h t b = (b, t, [])) := by
  constructor
  · intro hi
    simp [tellerBody, hi]
  · intro hi
    simp [tellerBody, hi]

/-- Witness for `teller_at_night_closed`: an idle teller, idle since clock reading 1, at clock
reading 9. -/
theorem teller_at_night_closed_witness :
    tellerBody false false false { now := 9, now2 := 9, r := 0 } flatHeap
        { idleTime := 1, idle := true } Bank.init
      = (Bank.init.updateWaitTime ((9 - 1) * 600), { idle := false, idleTime := 0 }, []) :=
  (teller_at_night_closed false { now := 9, now2 := 9, r := 0 } flatHeap
    { idleTime := 1, idle := true } Bank.init).1 rfl

theorem remove_some_first (h : Heap) (b : Bank) (c : Ptr) (hc : (b.remove h).1 = some c) :
    b.first = some c := by
  unfold Bank.remove at hc
  split at hc
  · cases hc
  · rename_i out hout
    simp only [Option.some.injEq] at hc
    rw [hout, hc]

theorem tellerBody_serve (day open1 day2 : Bool) (e : TellerEnv) (h : Heap) (t : Teller)
    (b : Bank) (c : Ptr) (hin : (day || open1) = true) (hc : (b.remove h).1 = some c) :
    tellerBody day open1 day2 e h t b
      = ((((if t.idle then (b.remove h).2.updateWaitTime ((e.now - t.idleTime) * 600)
              else (b.remove h).2).updateQueueTime
            ((e.now2 - (h c).startTime) * 600)).updateServiceTime (serviceTime e.r)).incNCust,
          { t with idle := false }, [Event.removed (some c)]) := by
  have hb := remove_some_first h b c hc
  unfold tellerBody
  by_cases hi : t.idle = true
  · simp [Bank.remove, hb, hin, hi]
  · have hi2 : t.idle = false := by simpa using hi
    cases t
    simp only at hi2
    subst hi2
    simp [Bank.remove, hb, hin]

/-- C15: in a teller iteration that enters the serving branch and in which `remove` returns a
customer `c`, an idle teller becomes busy and records the teller-idle sample
`(now - idleTime) * 600` through `updateWaitTime`; a busy teller stays as it is and the
teller-idle series is not touched; in both cases the queue-wait sample
`(now2 - c.startTime) * 600` is recorded through `updateQueueTime`, followed by the service
sample and the increment of `nCust`. -/
theorem teller_serves (day open1 day2 : Bool) (e : TellerEnv) (h : Heap) (t : Teller)
    (b : Bank) (c : Ptr) (hin : (day || open1) = true) (hc : (b.remove h).1 = some c) :
    (tellerBody day open1 day2 e h t b).2.2 = [Event.removed (some c)] ∧
    (tellerBody day open1 day2 e h t b).2.1.idle = false ∧
    (tellerBody day open1 day2 e h t b).2.1.idleTime = t.idleTime ∧
    (t.idle = true →
      (tellerBody day open1 day2 e h t b).1
        = ((((b.remove h).2.updateWaitTime ((e.now - t.idleTime) * 600)).updateQueueTime
              ((e.now2 - (h c).startTime) * 600)).updateServiceTime
            (serviceTime e.r)).incNCust) ∧
    (t.idle = false →
      (tellerBody day open1 day2 e h t b).1
        = (((b.remove h).2.updateQueueTime
              ((e.now2 - (h c).startTime) * 600)).updateServiceTime
            (serviceTime e.r)).incNCust ∧
      (tellerBody day open1 day2 e h t b).1.waitAvgTime = b.waitAvgTime ∧
      (tellerBody day open1 day2 e h t b).1.waitMaxTime = b.waitMaxTime) := by
  rw [tellerBody_serve day open1 day2 e h t b c hin hc]
  refine ⟨rfl, rfl, rfl, ?_, ?_⟩
  · intro hi
    simp [hi]
  · intro hi
    have hb := remove_some_first h b c hc
    simp only [hi, Bool.false_eq_true, if_false, true_and]
    constructor
    · simp only [Bank.incNCust, Bank.updateServiceTime, Bank.updateQueueTime, Bank.remove, hb]
      split_ifs <;> rfl
    · simp only [Bank.incNCust, Bank.updateServiceTime, Bank.updateQueueTime, Bank.remove, hb]
      split_ifs <;> rfl

/-- Witness for `teller_serves`: an idle teller, idle since clock reading 1, receives
customer 1 at clock reading 3 during the day. -/
theorem teller_serves_witness :
    (tellerBody true true true { now := 3, now2 := 4, r := 5 } flatHeap
        { idleTime := 1, idle := true } { Bank.init with first := some 1 }).2.2
      = [Event.removed (some 1)] ∧
    (tellerBody true true true { now := 3, now2 := 4, r := 5 } flatHeap
        { idleTime := 1, idle := true } { Bank.init with first := some 1 }).2.1.idle = false ∧
    (tellerBody true true true { now := 3, now2 := 4, r := 5 } flatHeap
        { idleTime := 1, idle := true } { Bank.init with first := some 1 }).1
      = ((((({ Bank.init with first := some 1 } : Bank).remove flatHeap).2.updateWaitTime
              ((3 - 1) * 600)).updateQueueTime
            ((4 - (flatHeap 1).startTime) * 600)).updateServiceTime (serviceTime 5)).incNCust :=
  ⟨(teller_serves true true true { now := 3, now2 := 4, r := 5 } flatHeap
      { idleTime := 1, idle := true } { Bank.init with first := some 1 } 1 rfl rfl).1,
    (teller_serves true true true { now := 3, now2 := 4, r := 5 } flatHeap
      { idleTime := 1, idle := true } { Bank.init with first := some 1 } 1 rfl rfl).2.1,
    (teller_serves true true true { now := 3, now2 := 4, r := 5 } flatHeap
      { idleTime := 1, idle := true } { Bank.init with first := some 1 } 1 rfl rfl).2.2.2.1
      rfl⟩

/-- C16: for every value `r` of `rand()` the service duration drawn by the teller is
`(r mod 329) + 31`; the attainable durations are exactly the integers from 31 to 359; and in a
serving iteration that value is the sample passed to `updateServiceTime`. -/
theorem service_time_range :
    (∀ r : Nat, serviceTime r = ((r % 329 + 31 : Nat) : ℚ)) ∧
    (∀ n : Nat, (∃ r : Nat, serviceTime r = (n : ℚ)) ↔ 31 ≤ n ∧ n < 360) ∧
    ∀ (day open1 day2 : Bool) (e : TellerEnv) (h : Heap) (t : Teller) (b : Bank) (c : Ptr),
      (day || open1) = true → (b.remove h).1 = some c →
      (tellerBody day open1 day2 e h t b).1
        = (((if t.idle then (b.remove h).2.updateWaitTime ((e.now - t.idleTime) * 600)
              else (b.remove h).2).updateQueueTime
            ((e.now2 - (h c).startTime) * 600)).updateServiceTime
          (serviceTime e.r)).incNCust := by
  have hform : ∀ r : Nat, serviceTime r = ((r % 329 + 31 : Nat) : ℚ) := by
    intro r
    unfold serviceTime
    have h329 : (6 * 60 - (30 + 1) : Nat) = 329 := by norm_num
    rw [h329]
    push_cast
    ring
  refine ⟨hform, ?_, ?_⟩
  · intro n
    constructor
    · rintro ⟨r, hr⟩
      rw [hform] at hr
      have hn : r % 329 + 31 = n := by exact_mod_cast hr
      omega
    · rintro ⟨h1, h2⟩
      refine ⟨n - 31, ?_⟩
      rw [hform]
      have hn : (n - 31) % 329 + 31 = n := by omega
      rw [hn]
  · intro day open1 day2 e h t b c hin hc
    rw [tellerBody_serve day open1 day2 e h t b c hin hc]

/-- Witness for `service_time_range`: `rand()` values 0, 328 and 329 give 31, 359 and 31, and
a busy teller serving customer 1 passes `serviceTime 328` to `updateServiceTime`. -/
theorem service_time_range_witness :
    serviceTime 0 = ((0 % 329 + 31 : Nat) : ℚ) ∧
    serviceTime 328 = ((328 % 329 + 31 : Nat) : ℚ) ∧
    serviceTime 329 = ((329 % 329 + 31 : Nat) : ℚ) ∧
    (tellerBody true true true { now := 3, now2 := 4, r := 328 } flatHeap
        { idleTime := 1, idle := false } { Bank.init with first := some 1 }).1
      = (((if ({ idleTime := 1, idle := false } : Teller).idle then
              (({ Bank.init with first := some 1 } : Bank).remove flatHeap).2.updateWaitTime
                ((3 - 1) * 600)
            else (({ Bank.init with first := some 1 } : Bank).remove flatHeap).2).updateQueueTime
            ((4 - (flatHeap 1).startTime) * 600)).updateServiceTime
          (serviceTime 328)).incNCust :=
  ⟨service_time_range.1 0, service_time_range.1 328, service_time_range.1 329,
    service_time_range.2.2 true true true { now := 3, now2 := 4, r := 328 } flatHeap
      { idleTime := 1, idle := false } { Bank.init with first := some 1 } 1 rfl rfl⟩

/-! ## The generator interval -/

theorem genInterval_eq (r : Nat) : genInterval r = ((r % 4 * 60 : Nat) : ℚ) := by
  unfold genInterval
  have h : (((r : Int) % 4) * 60 - (60 + 1) : Int) = ((r % 4 * 60 : Nat) : Int) - 61 := by
    omega
  rw [h, Int.cast_sub, Int.cast_natCast]
  norm_num

/-- C17 (the claim as stated fails): for `rand()` value 1 the interval drawn by `genCust` is 60
simulated seconds, not `1 mod 240 = 1`. -/
theorem gen_interval_not_mod_240 :
    genInterval 1 = 60 ∧ genInterval 1 ≠ ((1 % 240 : Nat) : ℚ) := by
  rw [genInterval_eq]
  norm_num

/-- C17 (amended): for every value `r` of `rand()` the interval in simulated seconds drawn by
`genCust` is `(r mod 4) * 60`, so the attainable intervals are exactly 0, 60, 120 and 180. -/
theorem gen_interval :
    (∀ r : Nat, genInterval r = ((r % 4 * 60 : Nat) : ℚ)) ∧
    ∀ q : ℚ, (∃ r : Nat, genInterval r = q) ↔ (q = 0 ∨ q = 60 ∨ q = 120 ∨ q = 180) := by
  refine ⟨genInterval_eq, ?_⟩
  intro q
  constructor
  · rintro ⟨r, rfl⟩
    rw [genInterval_eq]
    have h4 : r % 4 = 0 ∨ r % 4 = 1 ∨ r % 4 = 2 ∨ r % 4 = 3 := by omega
    rcases h4 with h | h | h | h <;> rw [h] <;> norm_num
  · rintro (rfl | rfl | rfl | rfl)
    · exact ⟨0, by rw [genInterval_eq]; norm_num⟩
    · exact ⟨1, by rw [genInterval_eq]; norm_num⟩
    · exact ⟨2, by rw [genInterval_eq]; norm_num⟩
    · exact ⟨3, by rw [genInterval_eq]; norm_num⟩

/-! ## The timekeeper -/

/-- C18: the first half of a `timekeeper` iteration sets `day = true` and `open = true`
(writing no report) and sleeps `bankTime(25200) = 42000000` microseconds; the second half sets
`day = false`, changes nothing else, and sleeps `bankTime(61200) = 102000000` microseconds; the
two sleeps add up to `bankTime(86400)`, one simulated day. -/
theorem timekeeper_cycle (b b1 : Bank) :
    (timekeeperStart b).1.day = true ∧ (timekeeperStart b).1.open_ = true ∧
    (timekeeperStart b).2.1 = [] ∧
    (timekeeperStart b).2.2 = bankTime 25200 ∧ bankTime 25200 = 42000000 ∧
    (timekeeperEnd b1).1 = { b1 with day := false } ∧
    (timekeeperEnd b1).1.open_ = b1.open_ ∧
    (timekeeperEnd b1).2 = bankTime 61200 ∧ bankTime 61200 = 102000000 ∧
    (timekeeperStart b).2.2 + (timekeeperEnd b1).2 = bankTime 86400 := by
  refine ⟨?_, ?_, ?_, ?_, ?_, rfl, rfl, ?_, ?_, ?_⟩
  · simp [timekeeperStart, Bank.setOpen, Bank.setDay]
  · simp [timekeeperStart, setOpen_open]
  · simp [timekeeperStart, Bank.setOpen]
  · simp only [timekeeperStart]
    norm_num
  · unfold bankTime
    norm_num
  · simp only [timekeeperEnd]
    norm_num
  · unfold bankTime
    norm_num
  · simp only [timekeeperStart, timekeeperEnd, bankTime]
    norm_num

/-! ## The append path of `add` -/

/-- C20: every `Bank` method releases each mutex it locks; the only pairs (held, acquired)
that occur are `openMutex` before `nCustMutex`, `queueMetricMutex`, `serviceMetricMutex`,
`waitMetricMutex` (in `setOpen` when it calls `printMetrics`) and `queueMutex` before
`queueMetricMutex` (in `add` and `remove`), and each of them does occur; so no method locks a
mutex it holds, none locks `openMutex` while holding another mutex, and a ranking of the
mutexes increases along every pair, i.e. the held-while-acquiring relation has no cycle. -/
theorem lock_order :
    (∀ m : Method, heldAfter [] (lockTrace m) = []) ∧
    (∀ m : Method, ∀ p ∈ heldPairs m,
      p = (Mutex.openMutex, Mutex.nCustMutex) ∨ p = (Mutex.openMutex, Mutex.queueMetricMutex) ∨
      p = (Mutex.openMutex, Mutex.serviceMetricMutex) ∨
      p = (Mutex.openMutex, Mutex.waitMetricMutex) ∨
      p = (Mutex.queueMutex, Mutex.queueMetricMutex)) ∧
    ((Mutex.openMutex, Mutex.nCustMutex) ∈ heldPairs (Method.setOpen true) ∧
      (Mutex.openMutex, Mutex.queueMetricMutex) ∈ heldPairs (Method.setOpen true) ∧
      (Mutex.openMutex, Mutex.serviceMetricMutex) ∈ heldPairs (Method.setOpen true) ∧
      (Mutex.openMutex, Mutex.waitMetricMutex) ∈ heldPairs (Method.setOpen true) ∧
      (Mutex.queueMutex, Mutex.queueMetricMutex) ∈ heldPairs Method.add ∧
      (Mutex.queueMutex, Mutex.queueMetricMutex) ∈ heldPairs Method.remove) ∧
    (∀ m : Method, ∀ p ∈ heldPairs m, p.1 ≠ p.2 ∧ p.2 ≠ Mutex.openMutex) ∧
    ∃ rank : Mutex → Nat, ∀ m : Method, ∀ p ∈ heldPairs m, rank p.1 < rank p.2 := by
  refine ⟨?_, ?_, by decide, ?_, ?_⟩
  · intro m
    cases m with
    | setOpen printing => cases printing <;> decide
    | _ => decide
  · intro m
    cases m with
    | setOpen printing => cases printing <;> decide
    | _ => decide
  · intro m
    cases m with
    | setOpen printing => cases printing <;> decide
    | _ => decide
  · refine ⟨fun x => match x with
      | Mutex.openMutex => 0
      | Mutex.queueMutex => 0
      | _ => 1, ?_⟩
    intro m
    cases m with
    | setOpen printing => cases printing <;> decide
    | _ => decide

/-! ## Average and maximum -/

theorem update_other (s s1 : Series) (b : Bank) (v : ℚ) (hne : s ≠ s1) :
    (b.update s1 v).avgOf s = b.avgOf s ∧ (b.update s1 v).maxOf s = b.maxOf s := by
  cases s <;> cases s1
  all_goals first
    | exact absurd rfl hne
    | (simp only [Bank.update, Bank.avgOf, Bank.maxOf, Bank.updateQueueTime,
        Bank.updateServiceTime, Bank.updateWaitTime]
       split <;> exact ⟨rfl, rfl⟩)

theorem update_avg_le_max (s1 : Series) (b : Bank) (v : ℚ)
    (hinv : ∀ s, b.avgOf s ≤ b.maxOf s) :
    ∀ s, (b.update s1 v).avgOf s ≤ (b.update s1 v).maxOf s := by
  intro s
  by_cases hs : s = s1
  · subst hs
    rw [update_avgOf, update_maxOf]
    have h1 := hinv s
    have h2 : b.maxOf s ≤ Max.max (b.maxOf s) v := le_max_left _ _
    have h3 : v ≤ Max.max (b.maxOf s) v := le_max_right _ _
    by_cases h0 : b.avgOf s = 0
    · rw [if_neg (not_not.mpr h0), h0, zero_add]
      exact h3
    · rw [if_pos h0]
      linarith
  · obtain ⟨ha, hm⟩ := update_other s s1 b v hs
    rw [ha, hm]
    exact hinv s

theorem reset_avg_le_max (b : Bank) : ∀ s, b.reset.avgOf s ≤ b.reset.maxOf s := by
  intro s
  cases s <;> simp [Bank.reset, Bank.avgOf, Bank.maxOf]

theorem applyMetric_avg_le_max (b : Bank) (op : MetricOp)
    (hinv : ∀ s, b.avgOf s ≤ b.maxOf s) :
    ∀ s, (b.applyMetric op).avgOf s ≤ (b.applyMetric op).maxOf s := by
  cases op with
  | updateQueueTime time => exact update_avg_le_max Series.queue b time hinv
  | updateServiceTime time => exact update_avg_le_max Series.service b time hinv
  | updateWaitTime time => exact update_avg_le_max Series.wait b time hinv
  | reset => exact reset_avg_le_max b

theorem runMetrics_avg_le_max (ops : List MetricOp) :
    ∀ b : Bank, (∀ s, b.avgOf s ≤ b.maxOf s) →
      ∀ s, (runMetrics b ops).avgOf s ≤ (runMetrics b ops).maxOf s := by
  induction ops with
  | nil => intro b hinv; exact hinv
  | cons op ops ih =>
    intro b hinv
    exact ih (b.applyMetric op) (applyMetric_avg_le_max b op hinv)

/-- C21: in every state reached from the fresh bank by a finite sequence of
`updateQueueTime`, `updateServiceTime`, `updateWaitTime` (any sample values) and `reset`
calls, each series has stored average at most its stored maximum, and in the report that
`printMetrics` writes from such a state each average is at most the maximum of the same
series. -/
theorem average_le_maximum (ops : List MetricOp) :
    (∀ s : Series, (runMetrics Bank.init ops).avgOf s ≤ (runMetrics Bank.init ops).maxOf s) ∧
    ∃ n m qa qm sa sm wa wm,
      (runMetrics Bank.init ops).report.values
        = [Value.int n, Value.int m, Value.real qa, Value.real qm, Value.real sa,
            Value.real sm, Value.real wa, Value.real wm] ∧
      qa ≤ qm ∧ sa ≤ sm ∧ wa ≤ wm := by
  have hinv := runMetrics_avg_le_max ops Bank.init (by
    intro s
    cases s <;> simp [Bank.init, Bank.avgOf, Bank.maxOf])
  refine ⟨hinv, _, _, _, _, _, _, _, _, rfl, ?_, ?_, ?_⟩
  · have h := hinv Series.queue
    simp only [Bank.avgOf, Bank.maxOf] at h
    simp only [Bank.getAvgQueueTime, Bank.getMaxQueueTime]
    linarith
  · have h := hinv Series.service
    simp only [Bank.avgOf, Bank.maxOf] at h
    simp only [Bank.getAvgServiceTime, Bank.getMaxServiceTime]
    linarith
  · have h := hinv Series.wait
    simp only [Bank.avgOf, Bank.maxOf] at h
    simp only [Bank.getAvgWaitTime, Bank.getMaxWaitTime]
    linarith

/-! ## The running average on doubles: underflow -/

theorem roundHalfEven_intCast (n : ℤ) : roundHalfEven (n : ℚ) = n := by
  simp [roundHalfEven]

theorem roundHalfEven_half : roundHalfEven (1 / 2) = 0 := by
  have hf : ⌊(1 / 2 : ℚ)⌋ = 0 := by
    rw [Int.floor_eq_iff]
    norm_num
  simp only [roundHalfEven, hf]
  norm_num

theorem ulp_of_subnormal (x : ℚ) (h : |x| < (2 : ℚ) ^ (-1022 : ℤ)) :
    ulp x = (2 : ℚ) ^ (-1074 : ℤ) := by
  simp only [ulp, binade, if_pos h]
  norm_num

theorem roundDouble_half_min : roundDouble ((2 : ℚ) ^ (-1074 : ℤ) / 2) = some 0 := by
  have hu : ulp ((2 : ℚ) ^ (-1074 : ℤ) / 2) = (2 : ℚ) ^ (-1074 : ℤ) :=
    ulp_of_subnormal _ (by rw [abs_of_pos (by positivity)]; norm_num)
  have hq : (2 : ℚ) ^ (-1074 : ℤ) / 2 / (2 : ℚ) ^ (-1074 : ℤ) = 1 / 2 := by
    field_simp
  simp only [roundDouble, hu, hq, roundHalfEven_half]
  norm_num

theorem roundDouble_two_zpow (z : ℤ) (h1 : -1074 ≤ z) (h2 : z ≤ 1023) :
    roundDouble ((2 : ℚ) ^ z) = some ((2 : ℚ) ^ z) := by
  have hpos : (0 : ℚ) < (2 : ℚ) ^ z := by positivity
  have hb : binade ((2 : ℚ) ^ z) = Max.max z (-1022) := by
    unfold binade
    rw [abs_of_pos hpos]
    by_cases hz : z < -1022
    · rw [if_pos (zpow_lt_zpow_right₀ (by norm_num) hz), max_eq_right (le_of_lt hz)]
    · have hz2 : -1022 ≤ z := not_lt.mp hz
      rw [if_neg (not_lt.mpr (zpow_le_zpow_right₀ (by norm_num) hz2)), max_eq_left hz2]
      have : (2 : ℚ) ^ z = ((2 : ℕ) : ℚ) ^ z := by norm_num
      rw [this, Int.log_zpow (by norm_num)]
  obtain ⟨n, hn⟩ : ∃ n : ℕ, z - (Max.max z (-1022) - 52) = (n : ℤ) :=
    ⟨(z - (Max.max z (-1022) - 52)).toNat, by
      rw [Int.toNat_of_nonneg]
      rcases max_choice z (-1022) with h | h <;> rw [h] <;> omega⟩
  have hq : (2 : ℚ) ^ z / ulp ((2 : ℚ) ^ z) = (((2 : ℤ) ^ n : ℤ) : ℚ) := by
    rw [ulp, hb, ← zpow_sub₀ (by norm_num), hn]
    push_cast
    rw [zpow_natCast]
  have hy : (((2 : ℤ) ^ n : ℤ) : ℚ) * ulp ((2 : ℚ) ^ z) = (2 : ℚ) ^ z := by
    rw [← hq, div_mul_cancel₀]
    rw [ulp]
    positivity
  simp only [roundDouble, hq, roundHalfEven_intCast, hy]
  rw [if_pos]
  rw [abs_of_pos hpos]
  exact zpow_lt_zpow_right₀ (by norm_num) (by omega)

theorem roundDouble_eight : roundDouble 8 = some 8 := by
  have h := roundDouble_two_zpow 3 (by norm_num) (by norm_num)
  norm_num at h
  exact h

theorem roundDouble_one : roundDouble 1 = some 1 := by
  have h := roundDouble_two_zpow 0 (by norm_num) (by norm_num)
  simpa using h

theorem avgAssignDouble_zero (v : ℚ) : avgAssignDouble 0 v = roundDouble v := by
  simp [avgAssignDouble, doubleAdd]

theorem avgAssignDouble_halves (z : ℤ) (h1 : -1074 < z) (h2 : z ≤ 1023) :
    avgAssignDouble ((2 : ℚ) ^ z) 0 = some ((2 : ℚ) ^ (z - 1)) := by
  have hne : (2 : ℚ) ^ z ≠ 0 := by positivity
  have hhalf : (2 : ℚ) ^ z / 2 = (2 : ℚ) ^ (z - 1) := by
    rw [zpow_sub_one₀ (by norm_num)]
    rfl
  simp only [avgAssignDouble, if_pos hne, doubleAdd, add_zero,
    roundDouble_two_zpow z (le_of_lt h1) h2, doubleHalf, hhalf]
  exact roundDouble_two_zpow (z - 1) (by omega) (by omega)

theorem avgAssignDouble_underflow : avgAssignDouble ((2 : ℚ) ^ (-1074 : ℤ)) 0 = some 0 := by
  have hne : (2 : ℚ) ^ (-1074 : ℤ) ≠ 0 := by positivity
  simp only [avgAssignDouble, if_pos hne, doubleAdd, add_zero,
    roundDouble_two_zpow (-1074) (le_refl _) (by norm_num), doubleHalf]
  exact roundDouble_half_min

theorem avgAfterDouble_append (xs ys : List ℚ) :
    ∀ a : ℚ, avgAfterDouble a (xs ++ ys)
      = (avgAfterDouble a xs).bind (fun a1 => avgAfterDouble a1 ys) := by
  induction xs with
  | nil => intro a; rfl
  | cons x xs ih =>
    intro a
    simp only [List.cons_append, avgAfterDouble]
    cases avgAssignDouble a x with
    | none => rfl
    | some a1 => exact ih a1

theorem avgAfterDouble_zeros (n : ℕ) :
    ∀ k : ℕ, k + n ≤ 1074 →
      avgAfterDouble ((2 : ℚ) ^ (-(k : ℤ))) (List.replicate n 0)
        = some ((2 : ℚ) ^ (-((k + n : ℕ) : ℤ))) := by
  induction n with
  | zero => intro k _; rfl
  | succ n ih =>
    intro k hk
    have hstep := avgAssignDouble_halves (-(k : ℤ)) (by omega) (by omega)
    simp only [List.replicate_succ, avgAfterDouble, hstep]
    have h := ih (k + 1) (by omega)
    have e1 : (-(k : ℤ) - 1) = -((k + 1 : ℕ) : ℤ) := by push_cast; ring
    have e2 : k + 1 + n = k + (n + 1) := by omega
    rw [e1, h, e2]

theorem updateDouble_avgOf (s : Series) (b : Bank) (v : ℚ) :
    (b.updateDouble s v).map (Bank.avgOf s) = avgAssignDouble (b.avgOf s) v := by
  cases s
  all_goals
    simp only [Bank.updateDouble, Bank.updateQueueTimeDouble, Bank.updateServiceTimeDouble,
      Bank.updateWaitTimeDouble, Bank.avgOf]
    cases avgAssignDouble _ v with
    | none => rfl
    | some a =>
      simp only [Option.map_some', Option.some.injEq]
      split <;> rfl

theorem updateAllDouble_avgOf (s : Series) (vs : List ℚ) :
    ∀ b : Bank, (b.updateAllDouble s vs).map (Bank.avgOf s)
      = avgAfterDouble (b.avgOf s) vs := by
  induction vs with
  | nil => intro b; rfl
  | cons v vs ih =>
    intro b
    have h := updateDouble_avgOf s b v
    simp only [Bank.updateAllDouble, avgAfterDouble]
    cases hb : b.updateDouble s v with
    | none =>
      rw [hb] at h
      simp only [Option.map_none'] at h
      rw [← h]
      rfl
    | some b1 =>
      rw [hb] at h
      simp only [Option.map_some'] at h
      rw [← h]
      exact ih b1

theorem avgAfterDouble_tiny (rest : List ℚ) :
    avgAfterDouble 0 ((2 : ℚ) ^ (-1074 : ℤ) :: 0 :: rest) = avgAfterDouble 0 rest := by
  simp only [avgAfterDouble, avgAssignDouble_zero,
    roundDouble_two_zpow (-1074) (le_refl _) (by norm_num), avgAssignDouble_underflow]

theorem avgAfterDouble_one_zeros (rest : List ℚ) :
    avgAfterDouble 0 (1 :: (List.replicate 1075 0 ++ rest)) = avgAfterDouble 0 rest := by
  have hrep : List.replicate 1075 (0 : ℚ) = List.replicate 1074 0 ++ [0] :=
    List.replicate_succ' 1074 0
  have hz := avgAfterDouble_zeros 1074 0 (by norm_num)
  have h1 : (2 : ℚ) ^ (-((0 : ℕ) : ℤ)) = 1 := by norm_num
  have h2 : (2 : ℚ) ^ (-((0 + 1074 : ℕ) : ℤ)) = (2 : ℚ) ^ (-1074 : ℤ) := by norm_num
  rw [h1, h2] at hz
  have hlast : avgAfterDouble ((2 : ℚ) ^ (-1074 : ℤ)) [0] = some 0 := by
    simp only [avgAfterDouble, avgAssignDouble_underflow]
  rw [avgAfterDouble, avgAssignDouble_zero, roundDouble_one]
  simp only []
  rw [hrep, avgAfterDouble_append, avgAfterDouble_append, hz]
  simp only [Option.some_bind, hlast]

/-- C13 (the claim as stated fails): on doubles, with non-negative samples, a positive stored
average underflows to exactly 0 and the next sample initialises it again. After the samples
`2^-1074` (the double `5e-324`) and `0` the queue-wait average is 0; after the further sample
`8` it is 8, not `(0 + 8)/2`. The same happens after the sample `1` followed by 1075 samples
`0`. -/
theorem average_reinitialised_after_underflow :
    (Bank.init.updateAllDouble Series.queue [(2 : ℚ) ^ (-1074 : ℤ)]).map
        (Bank.avgOf Series.queue) = some ((2 : ℚ) ^ (-1074 : ℤ)) ∧
    (2 : ℚ) ^ (-1074 : ℤ) ≠ 0 ∧
    (Bank.init.updateAllDouble Series.queue [(2 : ℚ) ^ (-1074 : ℤ), 0]).map
        (Bank.avgOf Series.queue) = some 0 ∧
    (Bank.init.updateAllDouble Series.queue [(2 : ℚ) ^ (-1074 : ℤ), 0, 8]).map
        (Bank.avgOf Series.queue) = some 8 ∧
    (8 : ℚ) ≠ (0 + 8) / 2 ∧
    (Bank.init.updateAllDouble Series.queue (1 :: List.replicate 1075 0)).map
        (Bank.avgOf Series.queue) = some 0 ∧
    (Bank.init.updateAllDouble Series.queue (1 :: (List.replicate 1075 0 ++ [8]))).map
        (Bank.avgOf Series.queue) = some 8 := by
  have h0 : Bank.init.avgOf Series.queue = 0 := rfl
  have h8 : avgAfterDouble 0 [8] = some 8 := by
    simp only [avgAfterDouble, avgAssignDouble_zero, roundDouble_eight]
  refine ⟨?_, by positivity, ?_, ?_, by norm_num, ?_, ?_⟩
  · rw [updateAllDouble_avgOf, h0]
    simp only [avgAfterDouble, avgAssignDouble_zero,
      roundDouble_two_zpow (-1074) (le_refl _) (by norm_num)]
  · rw [updateAllDouble_avgOf, h0, avgAfterDouble_tiny]
    rfl
  · rw [updateAllDouble_avgOf, h0, avgAfterDouble_tiny, h8]
  · have h := avgAfterDouble_one_zeros []
    rw [List.append_nil] at h
    rw [updateAllDouble_avgOf, h0, h]
    rfl
  · rw [updateAllDouble_avgOf, h0, avgAfterDouble_one_zeros, h8]

end BankSim
